import Mathlib

/-!
# Verification of the react-file-processor hooks

A shallow embedding of the two modules of the repository
(`src/useFileProcessor.ts` and `src/useReportGenerator.ts`) together with
theorems settling the specification claims.

Modelling conventions:

* JavaScript strings are Lean `String`s (code points; identical to UTF-16
  units on the inputs considered here).
* JavaScript numbers that the code uses as counts/sizes are `Nat`;
  progress percentages are exact rationals `ℚ` (the code only ever forms
  `((i+1)/N)*100`).
* The React `useState` cells of each hook become an explicit state record
  that every operation threads through; the optional `onError`/`onSuccess`
  callbacks become lists of the values the hook would deliver to them.
* Fallible host operations (the `FileReader`, an abort signal) are modelled
  as fields of the input file descriptor; `crypto.subtle.digest` is an
  abstract parameter `hash : String → String`.
-/

namespace FileProc

/-! ## JavaScript string primitives used by the hooks -/

/-- The characters matched by the JavaScript regexp class `\s` (and removed
by `String.prototype.trim`). -/
def isJsSpace (c : Char) : Bool :=
  c.toNat = 32 || c.toNat = 9 || c.toNat = 10 || c.toNat = 13 ||
  c.toNat = 11 || c.toNat = 12 || c.toNat = 0xa0 || c.toNat = 0x1680 ||
  (0x2000 ≤ c.toNat && c.toNat ≤ 0x200a) || c.toNat = 0x2028 ||
  c.toNat = 0x2029 || c.toNat = 0x202f || c.toNat = 0x205f ||
  c.toNat = 0x3000 || c.toNat = 0xfeff

/-- `String.prototype.trim`: drop leading and trailing whitespace. -/
def jsTrim (s : String) : List Char :=
  ((s.data.dropWhile isJsSpace).reverse.dropWhile isJsSpace).reverse

/-- Prepend a character to the first piece of a split result. -/
def consHead (c : Char) : List (List Char) → List (List Char)
  | [] => [[c]]
  | t :: ts => (c :: t) :: ts

/-- Worker for `str.split(/\s+/)`: the flag records whether we are inside
a whitespace run whose preceding piece has already been emitted. -/
def splitWsF : Bool → List Char → List (List Char)
  | _, [] => [[]]
  | inSep, c :: cs =>
    if isJsSpace c then
      if inSep then splitWsF true cs else [] :: splitWsF true cs
    else consHead c (splitWsF false cs)

/-- `str.split(/\s+/)`: pieces between maximal whitespace runs (a leading
run contributes an empty first piece, a trailing run an empty last one). -/
def splitWs (l : List Char) : List (List Char) :=
  splitWsF false l

/-- `str.split(sep)` for a one-character separator. -/
def splitChar (sep : Char) : List Char → List (List Char)
  | [] => [[]]
  | c :: cs => if c = sep then [] :: splitChar sep cs else consHead c (splitChar sep cs)

/-- `str.split('\n')`: pieces between single newline characters. -/
def splitNl (l : List Char) : List (List Char) :=
  splitChar '\n' l

/-- `countWords` (src/useFileProcessor.ts:149):
`text.trim().split(/\s+/).filter(word => word.length > 0).length`. -/
def countWords (text : String) : Nat :=
  ((splitWs (jsTrim text)).filter (fun w => w.length > 0)).length

/-- `countLines` (src/useFileProcessor.ts:156): `text.split('\n').length`. -/
def countLines (text : String) : Nat :=
  (splitNl text.data).length

/-! ## Data model of the file-processor hook -/

/-- The slice of the DOM `File` interface the hook reads, extended with the
outcome of the host interactions that `processFile` performs on it:
`readFails` models the `FileReader` firing `onerror`, and `aborted` models
the abort signal having been raised by the time the read settles. -/
structure JsFile where
  name : String
  size : Nat
  type : String
  lastModified : Int
  content : String
  readFails : Bool
  aborted : Bool

/-- `FileValidationOptions` after merging with `DEFAULT_VALIDATION`;
`none` models an `undefined` field. -/
structure FileValidationOptions where
  maxSize : Option Nat
  minSize : Option Nat
  allowedTypes : Option (List String)
  allowedExtensions : Option (List String)
  customValidator : Option (JsFile → Bool)

/-- `FileProcessingOptions` after merging with `DEFAULT_PROCESSING`
(the `onProgress` callback carries no information in the pure model). -/
structure FileProcessingOptions where
  encoding : Option String
  includeMetadata : Option Bool
  calculateChecksum : Option Bool
  chunkSize : Option Nat

/-- `FileProcessorError`: structured error record (never thrown across the
hook boundary).  `details` holds the message of the underlying `Error`. -/
structure FileProcessorError where
  code : String
  message : String
  file : Option JsFile
  details : Option String

/-- `ProcessedFile` as constructed at src/useFileProcessor.ts:216. -/
structure ProcessedFile where
  content : String
  fileName : String
  fileSize : Nat
  fileType : String
  lastModified : Int
  characterCount : Nat
  wordCount : Nat
  lineCount : Nat
  encoding : Option String
  checksum : Option String

/-- JavaScript truthiness of an optional numeric option: `undefined` and
`0` are both falsy, so a size bound of `0` disables its check. -/
def truthyNat : Option Nat → Bool
  | none => false
  | some n => n != 0

/-- `String.prototype.toLowerCase` on one character (ASCII range; the
hooks only ever compare ASCII extensions). -/
def jsToLowerChar (c : Char) : Char :=
  if 'A' ≤ c && c ≤ 'Z' then Char.ofNat (c.toNat + 32) else c

/-- The extension computed at src/useFileProcessor.ts:108:
`'.' + file.name.split('.').pop()?.toLowerCase()` (for a dot-free name the
whole name follows the dot, since `split` never returns an empty array). -/
def fileExtension (name : String) : String :=
  String.mk ('.' :: ((splitChar '.' name.data).getLastD []).map jsToLowerChar)

/-- The validation error built in the `catch` of `validateFile`. -/
def vErr (f : JsFile) (msg : String) : FileProcessorError :=
  { code := "VALIDATION_ERROR", message := msg, file := some f, details := none }

/-- `validateFile` (src/useFileProcessor.ts:90), as the pure outcome:
either `ok` (the function returns `true`) or the `VALIDATION_ERROR` it
stores and hands to `onError` before returning `false`. -/
def validateFileE (vo : FileValidationOptions) (f : JsFile) :
    Except FileProcessorError Unit :=
  if truthyNat vo.maxSize && decide (f.size > vo.maxSize.getD 0) then
    .error (vErr f ("File size (" ++ toString f.size ++
      " bytes) exceeds maximum allowed size (" ++
      toString (vo.maxSize.getD 0) ++ " bytes)"))
  else if truthyNat vo.minSize && decide (f.size < vo.minSize.getD 0) then
    .error (vErr f ("File size (" ++ toString f.size ++
      " bytes) is below minimum required size (" ++
      toString (vo.minSize.getD 0) ++ " bytes)"))
  else if vo.allowedTypes.isSome && !((vo.allowedTypes.getD []).contains f.type) then
    .error (vErr f ("File type '" ++ f.type ++ "' is not allowed"))
  else if vo.allowedExtensions.isSome &&
      !((vo.allowedExtensions.getD []).contains (fileExtension f.name)) then
    .error (vErr f ("File extension '" ++ fileExtension f.name ++ "' is not allowed"))
  else
    match vo.customValidator with
    | some v => if v f then .ok () else .error (vErr f "File failed custom validation")
    | none => .ok ()

/-! Rule-satisfaction predicates: each is the (boolean) negation of the
corresponding failure branch of `validateFileE`. -/

/-- The file does not trip the (truthiness-guarded) max-size check. -/
def passMax (vo : FileValidationOptions) (f : JsFile) : Bool :=
  !(truthyNat vo.maxSize && decide (f.size > vo.maxSize.getD 0))

/-- The file does not trip the (truthiness-guarded) min-size check. -/
def passMin (vo : FileValidationOptions) (f : JsFile) : Bool :=
  !(truthyNat vo.minSize && decide (f.size < vo.minSize.getD 0))

/-- The file does not trip the MIME-type allow-list check. -/
def passType (vo : FileValidationOptions) (f : JsFile) : Bool :=
  !(vo.allowedTypes.isSome && !((vo.allowedTypes.getD []).contains f.type))

/-- The file does not trip the extension allow-list check. -/
def passExt (vo : FileValidationOptions) (f : JsFile) : Bool :=
  !(vo.allowedExtensions.isSome &&
    !((vo.allowedExtensions.getD []).contains (fileExtension f.name)))

/-- The file passes the custom predicate (vacuously when none is set). -/
def passCustom (vo : FileValidationOptions) (f : JsFile) : Bool :=
  match vo.customValidator with
  | some v => v f
  | none => true

/-- `DEFAULT_VALIDATION` (src/useFileProcessor.ts:58). -/
def defaultValidation : FileValidationOptions :=
  { maxSize := some 10485760
    minSize := some 1
    allowedTypes := some ["text/plain", "text/csv", "application/json", "text/html", "text/markdown"]
    allowedExtensions := some [".txt", ".csv", ".json", ".html", ".md", ".docx", ".pdf"]
    customValidator := none }

/-- `DEFAULT_PROCESSING` (src/useFileProcessor.ts:66). -/
def defaultProcessing : FileProcessingOptions :=
  { encoding := some "utf-8"
    includeMetadata := some true
    calculateChecksum := some false
    chunkSize := some 65536 }

/-! ## The file-processor hook state and operations -/

/-- The `useState` cells of `useFileProcessor`. -/
structure FPState where
  isProcessing : Bool
  progress : ℚ
  error : Option FileProcessorError
  processedFiles : List ProcessedFile

/-- Hook state right after `useFileProcessor()` mounts. -/
def fpInit : FPState :=
  { isProcessing := false, progress := 0, error := none, processedFiles := [] }

/-- The `ProcessedFile` record built at src/useFileProcessor.ts:216
(`hash` abstracts the SHA-256/hex pipeline of `calculateChecksum`). -/
def mkProcessedFile (po : FileProcessingOptions) (hash : String → String)
    (f : JsFile) : ProcessedFile :=
  { content := f.content
    fileName := f.name
    fileSize := f.size
    fileType := f.type
    lastModified := f.lastModified
    characterCount := f.content.length
    wordCount := countWords f.content
    lineCount := countLines f.content
    encoding := po.encoding
    checksum := if po.calculateChecksum.getD false then some (hash f.content) else none }

/-- The `PROCESSING_ERROR` record built in the `catch` of `processFile`
(`details` carries the underlying `Error`, identified by its message). -/
def pErr (f : JsFile) (msg : String) : FileProcessorError :=
  { code := "PROCESSING_ERROR", message := msg, file := some f, details := some msg }

/-- The pure outcome of one `processFile` run (src/useFileProcessor.ts:163):
validation, then the `FileReader` read, then the abort-signal check, then
metric computation; the first failure wins. -/
def processFileCore (vo : FileValidationOptions) (po : FileProcessingOptions)
    (hash : String → String) (f : JsFile) :
    Except FileProcessorError ProcessedFile :=
  match validateFileE vo f with
  | .error e => .error e
  | .ok _ =>
    if f.readFails then .error (pErr f "Failed to read file")
    else if f.aborted then .error (pErr f "Operation was aborted")
    else .ok (mkProcessedFile po hash f)

/-- Observable result of a `processFile` call: the final hook state, the
returned value, and what would be handed to the `onError` / `onSuccess`
callbacks. -/
structure FPResult where
  state : FPState
  ret : Option ProcessedFile
  onErrorCalls : List FileProcessorError
  onSuccessCalls : List ProcessedFile

/-- `processFile` as a state transition.  On entry the hook sets
`isProcessing`, resets `progress` and clears `error`; on failure the error
is stored and reported and `null` is returned; on success the file is
appended; the `finally` clears `isProcessing` in every case. -/
def fpProcessFile (vo : FileValidationOptions) (po : FileProcessingOptions)
    (hash : String → String) (f : JsFile) (s : FPState) : FPResult :=
  match processFileCore vo po hash f with
  | .error e =>
    { state := { isProcessing := false, progress := 0, error := some e,
                 processedFiles := s.processedFiles }
      ret := none, onErrorCalls := [e], onSuccessCalls := [] }
  | .ok pf =>
    { state := { isProcessing := false, progress := 100, error := none,
                 processedFiles := s.processedFiles ++ [pf] }
      ret := some pf, onErrorCalls := [], onSuccessCalls := [pf] }

/-- Worker for `processFiles` (src/useFileProcessor.ts:254): `total` is
`files.length`, `i` the index of the next file.  Returns the final state,
the collected successes, and the overall-progress values assigned after
each item (line 266), in order. -/
def fpProcessFilesAux (vo : FileValidationOptions) (po : FileProcessingOptions)
    (hash : String → String) (total : Nat) :
    Nat → List JsFile → FPState → FPState × List ProcessedFile × List ℚ
  | _, [], s => (s, [], [])
  | i, f :: rest, s =>
    let r := fpProcessFile vo po hash f s
    let p : ℚ := ((i + 1 : ℚ) / (total : ℚ)) * 100
    let s2 : FPState := { r.state with progress := p }
    let out := fpProcessFilesAux vo po hash total (i + 1) rest s2
    (out.1,
     (match r.ret with | some pf => pf :: out.2.1 | none => out.2.1),
     p :: out.2.2)

/-- `processFiles`: sequential batch processing of a list of files. -/
def fpProcessFiles (vo : FileValidationOptions) (po : FileProcessingOptions)
    (hash : String → String) (files : List JsFile) (s : FPState) :
    FPState × List ProcessedFile × List ℚ :=
  fpProcessFilesAux vo po hash files.length 0 files s

/-- `clearProcessedFiles` (src/useFileProcessor.ts:286). -/
def clearProcessedFiles (s : FPState) : FPState :=
  { s with processedFiles := [], error := none, progress := 0 }

/-- `abortProcessing` (src/useFileProcessor.ts:275), in the case where a
controller is current. -/
def abortProcessing (s : FPState) : FPState :=
  { s with isProcessing := false, progress := 0 }

/-- The hook-level `validateFile` as a state transition: on failure it
stores and reports the validation error and returns `false`. -/
def fpValidateFile (vo : FileValidationOptions) (f : JsFile) (s : FPState) :
    FPState × Bool :=
  match validateFileE vo f with
  | .error e => ({ s with error := some e }, false)
  | .ok _ => (s, true)

/-! ### Sample inputs used to instantiate the theorems -/

/-- A small plain-text file that satisfies every default rule. -/
def sampleTxtFile : JsFile :=
  { name := "notes.txt", size := 5, type := "text/plain", lastModified := 0,
    content := "hello", readFails := false, aborted := false }

/-- A file whose read fails. -/
def sampleBadReadFile : JsFile :=
  { name := "bad.txt", size := 5, type := "text/plain", lastModified := 0,
    content := "hello", readFails := true, aborted := false }

/-- A rule set whose configured maximum size is `0`. -/
def maxZeroOptions : FileValidationOptions :=
  { maxSize := some 0, minSize := none, allowedTypes := none,
    allowedExtensions := none, customValidator := none }

end FileProc

namespace ReportGen

/-! ## A model of the JavaScript runtime values fed to the report hook

`useReportGenerator` receives `data: ReportData | ReportData[]` — i.e.
arbitrary JavaScript values.  `JValue` models them; a `Date` is identified
by its ISO-8601 rendering (the only thing the hook ever does with one). -/

inductive JValue where
  | null
  | undefined
  | boolean (b : Bool)
  | number (n : Int)
  | string (s : String)
  | date (iso : String)
  | array (elems : List JValue)
  | object (fields : List (String × JValue))

/-- Decimal digit character (`d < 10`). -/
def digitChar (d : Nat) : Char := Char.ofNat (48 + d)

/-- Lower-case hexadecimal digit character (`d < 16`), as emitted by
`JSON.stringify` in `\u00xx` escapes. -/
def hexChar (d : Nat) : Char :=
  if d < 10 then Char.ofNat (48 + d) else Char.ofNat (87 + d)

/-- Decimal digits of a natural number, most significant first; the fuel
keeps the recursion structural (any `fuel > n` is enough). -/
def natCharsAux : Nat → Nat → List Char
  | 0, _ => []
  | fuel + 1, n =>
    if n < 10 then [digitChar n]
    else natCharsAux fuel (n / 10) ++ [digitChar (n % 10)]

/-- Decimal rendering of a natural number (JS `String(n)`). -/
def natChars (n : Nat) : List Char := natCharsAux (n + 1) n

/-- Decimal rendering of an integer (JS `String(n)`). -/
def intChars (n : Int) : List Char :=
  if n < 0 then '-' :: natChars n.natAbs else natChars n.natAbs

/-- Decimal rendering as a `String`. -/
def natStr (n : Nat) : String := String.mk (natChars n)

/-- JavaScript `typeof`. -/
def jsTypeof : JValue → String
  | .null => "object"
  | .undefined => "undefined"
  | .boolean _ => "boolean"
  | .number _ => "number"
  | .string _ => "string"
  | .date _ => "object"
  | .array _ => "object"
  | .object _ => "object"

/-- JavaScript truthiness of a value. -/
def jsTruthy : JValue → Bool
  | .null => false
  | .undefined => false
  | .boolean b => b
  | .number n => n != 0
  | .string s => s != ""
  | .date _ => true
  | .array _ => true
  | .object _ => true

mutual

/-- JavaScript `String(v)` (dates are identified by their ISO string). -/
def jsToString : JValue → String
  | .null => "null"
  | .undefined => "undefined"
  | .boolean b => if b then "true" else "false"
  | .number n => String.mk (intChars n)
  | .string s => s
  | .date iso => iso
  | .array xs => joinElems xs
  | .object _ => "[object Object]"

/-- `Array.prototype.join(',')` over stringified elements (`null` and
`undefined` elements render empty). -/
def joinElems : List JValue → String
  | [] => ""
  | [v] =>
    match v with
    | .null => ""
    | .undefined => ""
    | w => jsToString w
  | v :: rest =>
    (match v with
     | .null => ""
     | .undefined => ""
     | w => jsToString w) ++ "," ++ joinElems rest

end

/-- The field lookup of a JavaScript object (insertion order, first
binding wins; real JS objects never hold duplicate keys). -/
def getField : List (String × JValue) → String → JValue
  | [], _ => .undefined
  | (k', v) :: fs, k => if k' = k then v else getField fs k

/-- A string that is a canonical array index (`"0"`, `"17"`, …). -/
def canonicalIndex? (k : String) : Option Nat :=
  if k.data ≠ [] && k.data.all Char.isDigit && (k = "0" || k.data.head? != some '0')
  then some (k.data.foldl (fun a c => a * 10 + (c.toNat - 48)) 0)
  else none

/-- `Object.keys` (throws a `TypeError` on `null`/`undefined`; index keys
for arrays and strings; `[]` for other primitives). -/
def objectKeys : JValue → Except String (List String)
  | .null => .error "Cannot convert undefined or null to object"
  | .undefined => .error "Cannot convert undefined or null to object"
  | .object fs => .ok (fs.map Prod.fst)
  | .array xs => .ok ((List.range xs.length).map natStr)
  | .string s => .ok ((List.range s.length).map natStr)
  | _ => .ok []

/-- `Object.entries` (same domain rules as `Object.keys`). -/
def objectEntries : JValue → Except String (List (String × JValue))
  | .null => .error "Cannot convert undefined or null to object"
  | .undefined => .error "Cannot convert undefined or null to object"
  | .object fs => .ok fs
  | .array xs => .ok (((List.range xs.length).zip xs).map
      (fun p => (natStr p.1, p.2)))
  | .string s => .ok ((List.range s.length).zip s.data |>.map
      (fun p => (natStr p.1, .string (String.mk [p.2]))))
  | _ => .ok []

/-- JavaScript property access `v[k]` (throws on `null`/`undefined`). -/
def jget : JValue → String → Except String JValue
  | .null, k => .error ("Cannot read properties of null (reading '" ++ k ++ "')")
  | .undefined, k =>
    .error ("Cannot read properties of undefined (reading '" ++ k ++ "')")
  | .object fs, k => .ok (getField fs k)
  | .array xs, k =>
    .ok (if k = "length" then .number (Int.ofNat xs.length)
         else match canonicalIndex? k with
              | some i => (xs.get? i).getD .undefined
              | none => .undefined)
  | .string s, k =>
    .ok (if k = "length" then .number (Int.ofNat s.length)
         else match canonicalIndex? k with
              | some i =>
                match s.data.get? i with
                | some c => .string (String.mk [c])
                | none => .undefined
              | none => .undefined)
  | _, _ => .ok .undefined

/-! ## CSV generation (src/useReportGenerator.ts:109) -/

/-- `Array.from(new Set(l))`: deduplicate keeping first occurrences. -/
def dedupFirstAux (seen : List String) : List String → List String
  | [] => []
  | k :: ks =>
    if seen.contains k then dedupFirstAux seen ks
    else k :: dedupFirstAux (k :: seen) ks

/-- First-seen deduplication of a key list. -/
def dedupFirst (l : List String) : List String := dedupFirstAux [] l

/-- `Array.prototype.join(sep)` over strings. -/
def joinWith (sep : String) : List String → String
  | [] => ""
  | [x] => x
  | x :: rest => x ++ sep ++ joinWith sep rest

/-- The CSV escaping of src/useReportGenerator.ts:128: wrap in quotes and
double the internal quotes when the value contains a comma, quote or
newline. -/
def csvEscape (s : String) : String :=
  if s.data.contains ',' || s.data.contains '"' || s.data.contains '\n' then
    "\"" ++ String.mk (s.data.flatMap (fun c => if c = '"' then ['"', '"'] else [c])) ++ "\""
  else s

/-- One CSV cell (src/useReportGenerator.ts:122): `null`/`undefined`
render empty, anything else is stringified then escaped. -/
def csvCell (v : JValue) : String :=
  match v with
  | .null => ""
  | .undefined => ""
  | w => csvEscape (jsToString w)

/-- Effectful map used to model the fallible iteration of `generateCSV`
(property access on a `null` record throws). -/
def mapExcept {α β : Type} (f : α → Except String β) : List α → Except String (List β)
  | [] => .ok []
  | x :: xs => do
    let y ← f x
    let ys ← mapExcept f xs
    .ok (y :: ys)

/-- One CSV data row: each column of `allKeys` looked up in `item`. -/
def csvRow (allKeys : List String) (item : JValue) : Except String String := do
  let cells ← mapExcept (fun k => do
      let v ← jget item k
      .ok (csvCell v)) allKeys
  .ok (joinWith "," cells)

/-- `generateCSV` (src/useReportGenerator.ts:109): empty string for
non-arrays and the empty array; otherwise a header of all keys (union in
first-seen order) and one row per record, joined by newlines. -/
def generateCSV (data : JValue) : Except String String :=
  match data with
  | .array items =>
    if items.length = 0 then .ok ""
    else do
      let keyss ← mapExcept objectKeys items
      let allKeys := dedupFirst keyss.flatten
      let rows ← mapExcept (csvRow allKeys) items
      .ok (joinWith "\n" (joinWith "," allKeys :: rows))
  | _ => .ok ""

/-! ## JSON serialization (`JSON.stringify(value, null, 2)`)

The platform serializer, modelled at the character level.  `undefined`
serializes to nothing (`none`): inside arrays it renders as `null`,
inside objects the member is dropped.  A `Date` serializes through its
`toJSON` as its ISO string. -/

/-- The escape `JSON.stringify` applies to one character inside a string
literal. -/
def escChar (c : Char) : List Char :=
  if c = '"' then ['\\', '"']
  else if c = '\\' then ['\\', '\\']
  else if c = '\n' then ['\\', 'n']
  else if c = '\r' then ['\\', 'r']
  else if c = '\t' then ['\\', 't']
  else if c = '\x08' then ['\\', 'b']
  else if c = '\x0c' then ['\\', 'f']
  else if c.toNat < 32 then
    ['\\', 'u', '0', '0', hexChar (c.toNat / 16), hexChar (c.toNat % 16)]
  else [c]

/-- Escape a whole string body. -/
def escChars (l : List Char) : List Char := l.flatMap escChar

/-- A JSON string literal: quoted, escaped. -/
def quoteChars (s : String) : List Char :=
  '"' :: (escChars s.data ++ ['"'])

/-- The indentation prefix at nesting level `lvl` for a 2-space gap. -/
def indent (lvl : Nat) : List Char := List.replicate (2 * lvl) ' '

/-- Join already-rendered members/items: each following member is preceded
by `",\n"` and the indentation of its level. -/
def joinMembers : List (List Char) → Nat → List Char
  | [], _ => []
  | m :: ms, lvl => ',' :: '\n' :: (indent lvl ++ m ++ joinMembers ms lvl)

mutual

/-- `JSON.stringify(v, null, 2)` at nesting level `lvl`, as characters;
`none` models the `undefined` result. -/
def jsonStr : JValue → Nat → Option (List Char)
  | .null, _ => some "null".data
  | .undefined, _ => none
  | .boolean b, _ => some (if b then "true".data else "false".data)
  | .number n, _ => some (intChars n)
  | .string s, _ => some (quoteChars s)
  | .date iso, _ => some (quoteChars iso)
  | .array xs, lvl =>
    some (match jsonArrItems xs (lvl + 1) with
      | [] => "[]".data
      | m :: ms =>
        '[' :: '\n' :: (indent (lvl + 1) ++ m ++ joinMembers ms (lvl + 1) ++
          '\n' :: (indent lvl ++ [']'])))
  | .object fs, lvl =>
    some (match jsonMembers fs (lvl + 1) with
      | [] => "{}".data
      | m :: ms =>
        '{' :: '\n' :: (indent (lvl + 1) ++ m ++ joinMembers ms (lvl + 1) ++
          '\n' :: (indent lvl ++ ['}'])))

/-- The rendered array items (an `undefined` item renders as `null`). -/
def jsonArrItems : List JValue → Nat → List (List Char)
  | [], _ => []
  | x :: xs, lvl =>
    (match jsonStr x lvl with
     | some cs => cs
     | none => "null".data) :: jsonArrItems xs lvl

/-- The rendered object members (`"key": value`; an `undefined`-valued
member is dropped). -/
def jsonMembers : List (String × JValue) → Nat → List (List Char)
  | [], _ => []
  | (k, v) :: fs, lvl =>
    match jsonStr v lvl with
    | some cs => (quoteChars k ++ ':' :: ' ' :: cs) :: jsonMembers fs lvl
    | none => jsonMembers fs lvl

end

/-- `generateJSON` (src/useReportGenerator.ts:96): pretty-print the
wrapper `{metadata, data, generatedAt}` with 2-space indentation
(`nowIso` is `new Date().toISOString()`). -/
def generateJSON (data metadata : JValue) (nowIso : String) : String :=
  String.mk ((jsonStr (.object [("metadata", metadata),
    ("data", data), ("generatedAt", .string nowIso)]) 0).getD [])

/-! ## A verified model of `JSON.parse`

Recursive-descent parser over characters, fuelled to keep it structural.
It covers the JSON fragment `JSON.stringify` emits for `JValue`s (in
particular, integer numerals). -/

/-- The insignificant whitespace of JSON. -/
def isJsonWs (c : Char) : Bool :=
  c.toNat = 32 || c.toNat = 9 || c.toNat = 10 || c.toNat = 13

/-- Skip insignificant whitespace. -/
def skipWs (l : List Char) : List Char := l.dropWhile isJsonWs

/-- Value of one hexadecimal digit character. -/
def hexVal? (c : Char) : Option Nat :=
  if 48 ≤ c.toNat && c.toNat ≤ 57 then some (c.toNat - 48)
  else if 97 ≤ c.toNat && c.toNat ≤ 102 then some (c.toNat - 87)
  else if 65 ≤ c.toNat && c.toNat ≤ 70 then some (c.toNat - 55)
  else none

/-- The single-character escapes of JSON string literals. -/
def escCode? (e : Char) : Option Char :=
  if e = '"' then some '"'
  else if e = '\\' then some '\\'
  else if e = '/' then some '/'
  else if e = 'n' then some '\n'
  else if e = 't' then some '\t'
  else if e = 'r' then some '\r'
  else if e = 'b' then some '\x08'
  else if e = 'f' then some '\x0c'
  else none

mutual

/-- Parse a string-literal body (the opening quote already consumed),
accumulating the decoded characters in reverse. -/
def parseStrBody (acc : List Char) : List Char → Option (String × List Char)
  | [] => none
  | c :: rest =>
    if c = '"' then some (String.mk acc.reverse, rest)
    else if c = '\\' then parseEsc acc rest
    else parseStrBody (c :: acc) rest

/-- Parse the tail of an escape sequence (the backslash consumed). -/
def parseEsc (acc : List Char) : List Char → Option (String × List Char)
  | 'u' :: h1 :: h2 :: h3 :: h4 :: r3 =>
    match hexVal? h1, hexVal? h2, hexVal? h3, hexVal? h4 with
    | some a, some b, some c2, some d =>
      parseStrBody (Char.ofNat (((a * 16 + b) * 16 + c2) * 16 + d) :: acc) r3
    | _, _, _, _ => none
  | e :: r2 =>
    match escCode? e with
    | some c2 => parseStrBody (c2 :: acc) r2
    | none => none
  | [] => none

end

/-- Take the maximal run of decimal digits. -/
def takeDigits : List Char → List Char × List Char
  | [] => ([], [])
  | c :: rest =>
    if c.isDigit then
      let p := takeDigits rest
      (c :: p.1, p.2)
    else ([], c :: rest)

/-- Numeric value of a digit run. -/
def digitsVal (l : List Char) : Nat :=
  l.foldl (fun a c => a * 10 + (c.toNat - 48)) 0

/-- Parse an (optionally negated) integer numeral. -/
def parseInt? (l : List Char) : Option (Int × List Char) :=
  match l with
  | [] => none
  | c :: rest =>
    if c = '-' then
      match takeDigits rest with
      | ([], _) => none
      | (ds, r) => some (-(digitsVal ds : Int), r)
    else
      match takeDigits (c :: rest) with
      | ([], _) => none
      | (ds, r) => some ((digitsVal ds : Int), r)

mutual

/-- Parse one JSON value (leading whitespace allowed). -/
def parseVal : Nat → List Char → Option (JValue × List Char)
  | 0, _ => none
  | fuel + 1, input =>
    match skipWs input with
    | [] => none
    | c :: rest =>
      if c = 'n' then
        match rest with
        | 'u' :: 'l' :: 'l' :: r => some (.null, r)
        | _ => none
      else if c = 't' then
        match rest with
        | 'r' :: 'u' :: 'e' :: r => some (.boolean true, r)
        | _ => none
      else if c = 'f' then
        match rest with
        | 'a' :: 'l' :: 's' :: 'e' :: r => some (.boolean false, r)
        | _ => none
      else if c = '"' then
        match parseStrBody [] rest with
        | some (s, r) => some (.string s, r)
        | none => none
      else if c = '[' then
        match skipWs rest with
        | [] => none
        | c2 :: r2 =>
          if c2 = ']' then some (.array [], r2)
          else
            match parseItems fuel rest with
            | some (xs, r) => some (.array xs, r)
            | none => none
      else if c = '{' then
        match skipWs rest with
        | [] => none
        | c2 :: r2 =>
          if c2 = '}' then some (.object [], r2)
          else
            match parseMembers fuel rest with
            | some (fs, r) => some (.object fs, r)
            | none => none
      else
        match parseInt? (c :: rest) with
        | some (n, r) => some (.number n, r)
        | none => none

/-- Parse the items of a non-empty array (input starts after `[`). -/
def parseItems : Nat → List Char → Option (List JValue × List Char)
  | 0, _ => none
  | fuel + 1, l =>
    match parseVal fuel l with
    | none => none
    | some (v, r1) =>
      match skipWs r1 with
      | ',' :: r2 =>
        match parseItems fuel r2 with
        | some (vs, r3) => some (v :: vs, r3)
        | none => none
      | ']' :: r2 => some ([v], r2)
      | _ => none

/-- Parse the members of a non-empty object (input starts after `{`). -/
def parseMembers : Nat → List Char → Option (List (String × JValue) × List Char)
  | 0, _ => none
  | fuel + 1, l =>
    match skipWs l with
    | '"' :: r0 =>
      match parseStrBody [] r0 with
      | none => none
      | some (k, r1) =>
        match skipWs r1 with
        | ':' :: r2 =>
          match parseVal fuel r2 with
          | none => none
          | some (v, r3) =>
            match skipWs r3 with
            | ',' :: r4 =>
              match parseMembers fuel r4 with
              | some (fs, r5) => some ((k, v) :: fs, r5)
              | none => none
            | '}' :: r4 => some ([(k, v)], r4)
            | _ => none
        | _ => none
    | _ => none

end

/-- `JSON.parse`: parse a complete document (trailing whitespace only). -/
def parseJson (s : String) : Option JValue :=
  match parseVal (s.length + 1) s.data with
  | some (v, rest) => if (skipWs rest).isEmpty then some v else none
  | none => none

mutual

/-- The JSON-safe fragment: no `undefined` and no `Date` anywhere (such
values serialize to something that parses back differently or not at all). -/
def jsonSafe : JValue → Bool
  | .undefined => false
  | .date _ => false
  | .array xs => jsonSafeList xs
  | .object fs => jsonSafeFields fs
  | _ => true

/-- Safety of every element of an array. -/
def jsonSafeList : List JValue → Bool
  | [] => true
  | v :: vs => jsonSafe v && jsonSafeList vs

/-- Safety of every member value of an object. -/
def jsonSafeFields : List (String × JValue) → Bool
  | [] => true
  | (_, v) :: fs => jsonSafe v && jsonSafeFields fs

end

mutual

/-- Node count of a value, a lower bound for the parser fuel. -/
def jsize : JValue → Nat
  | .array xs => 1 + jsizeList xs
  | .object fs => 1 + jsizeFields fs
  | _ => 1

/-- Node count of an element list. -/
def jsizeList : List JValue → Nat
  | [] => 0
  | v :: vs => 1 + jsize v + jsizeList vs

/-- Node count of a member list. -/
def jsizeFields : List (String × JValue) → Nat
  | [] => 0
  | (_, v) :: fs => 1 + jsize v + jsizeFields fs

end

/-- The continuation after a numeral must not begin with a digit (it
would otherwise be absorbed into the numeral). -/
def noLeadingDigit : List Char → Bool
  | [] => true
  | c :: _ => !c.isDigit

/-- A lower bound on the serialized size of a list of rendered
members/items (one separator plus the member text each). -/
def itemsLen : List (List Char) → Nat
  | [] => 0
  | m :: ms => 1 + m.length + itemsLen ms

/-! ## Report options and the HTML / text formatters -/

/-- `ReportFormat` (src/useReportGenerator.ts:15). -/
inductive ReportFormat where
  | json
  | csv
  | html
  | pdf
  | xlsx
  | txt
deriving DecidableEq

/-- The string value of a format tag (what `${options.format}`
interpolates). -/
def formatStr : ReportFormat → String
  | .json => "json"
  | .csv => "csv"
  | .html => "html"
  | .pdf => "pdf"
  | .xlsx => "xlsx"
  | .txt => "txt"

/-- `ReportStyling` (src/useReportGenerator.ts:40); `none` = absent. -/
structure ReportStyling where
  theme : Option String
  primaryColor : Option String
  fontFamily : Option String
  fontSize : Option String
  customCSS : Option String

/-- `DEFAULT_STYLING` (src/useReportGenerator.ts:63). -/
def defaultStyling : ReportStyling :=
  { theme := some "light"
    primaryColor := some "#3b82f6"
    fontFamily := some "system-ui, -apple-system, sans-serif"
    fontSize := some "14px"
    customCSS := none }

/-- The spread `{ ...DEFAULT_STYLING, ...options.styling }` (absent
fields fall back to the defaults). -/
def mergeStyling : Option ReportStyling → ReportStyling
  | none => defaultStyling
  | some st =>
    { theme := st.theme <|> defaultStyling.theme
      primaryColor := st.primaryColor <|> defaultStyling.primaryColor
      fontFamily := st.fontFamily <|> defaultStyling.fontFamily
      fontSize := st.fontSize <|> defaultStyling.fontSize
      customCSS := st.customCSS }

/-- `ReportOptions` (src/useReportGenerator.ts:30).  `metadata` is the
runtime value handed in (an object, or `undefined` when absent), which is
what `generateJSON` serializes and the other formatters probe. -/
structure ReportOptions where
  filename : Option String
  format : ReportFormat
  metadata : JValue
  template : Option String
  styling : Option ReportStyling
  compression : Option Bool
  includeTimestamp : Option Bool

/-- Optional chaining `m?.k`: `undefined` on `null`/`undefined`, plain
property access otherwise (which then cannot throw). -/
def mget (m : JValue) (k : String) : JValue :=
  match m with
  | .null => .undefined
  | .undefined => .undefined
  | v =>
    match jget v k with
    | .ok r => r
    | .error _ => .undefined

/-- JavaScript `.length` as consumed by `'='.repeat(...)`: string or
array length, `0` (via `NaN`) for anything else. -/
def jsLength : JValue → Nat
  | .string s => s.length
  | .array xs => xs.length
  | _ => 0

/-- Interpolation of a possibly-`undefined` string option. -/
def optStr (o : Option String) : String := o.getD "undefined"

/-- Concatenation (`Array.prototype.join('')`). -/
def concatAll : List String → String
  | [] => ""
  | s :: ss => s ++ concatAll ss

/-- Theme-conditional CSS colour (`styling.theme === 'dark' ? a : b`). -/
def themed (styling : ReportStyling) (darkVal lightVal : String) : String :=
  if styling.theme = some "dark" then darkVal else lightVal

/-- The `css` template of `generateHTML` (src/useReportGenerator.ts:149). -/
def cssBlock (styling : ReportStyling) : String :=
  "\n      body \x7b\n        font-family: " ++ optStr styling.fontFamily ++
  ";\n        font-size: " ++ optStr styling.fontSize ++
  ";\n        line-height: 1.6;\n        color: " ++
  themed styling "#e5e7eb" "#374151" ++
  ";\n        background-color: " ++ themed styling "#1f2937" "#ffffff" ++
  ";\n        margin: 0;\n        padding: 20px;\n      \x7d\n      \n      " ++
  ".report-container \x7b\n        max-width: 1200px;\n        margin: 0 auto;\n" ++
  "        background: " ++ themed styling "#374151" "#f9fafb" ++
  ";\n        border-radius: 8px;\n        padding: 30px;\n" ++
  "        box-shadow: 0 4px 6px rgba(0, 0, 0, 0.1);\n      \x7d\n      \n      " ++
  ".report-header \x7b\n        border-bottom: 3px solid " ++
  optStr styling.primaryColor ++
  ";\n        padding-bottom: 20px;\n        margin-bottom: 30px;\n      \x7d\n      \n      " ++
  ".report-title \x7b\n        color: " ++ optStr styling.primaryColor ++
  ";\n        font-size: 2.5em;\n        margin: 0 0 10px 0;\n        font-weight: bold;\n      \x7d\n      \n      " ++
  ".report-meta \x7b\n        color: " ++ themed styling "#9ca3af" "#6b7280" ++
  ";\n        font-size: 0.9em;\n      \x7d\n      \n      " ++
  ".data-section \x7b\n        margin: 20px 0;\n      \x7d\n      \n      " ++
  ".data-table \x7b\n        width: 100%;\n        border-collapse: collapse;\n        margin: 20px 0;\n      \x7d\n      \n      " ++
  ".data-table th,\n      .data-table td \x7b\n        border: 1px solid " ++
  themed styling "#4b5563" "#d1d5db" ++
  ";\n        padding: 12px;\n        text-align: left;\n      \x7d\n      \n      " ++
  ".data-table th \x7b\n        background-color: " ++ optStr styling.primaryColor ++
  ";\n        color: white;\n        font-weight: bold;\n      \x7d\n      \n      " ++
  ".data-table tr:nth-child(even) \x7b\n        background-color: " ++
  themed styling "#4b5563" "#f3f4f6" ++ ";\n      \x7d\n      \n      " ++
  ".json-container \x7b\n        background-color: " ++
  themed styling "#1f2937" "#f8f9fa" ++ ";\n        border: 1px solid " ++
  themed styling "#4b5563" "#e5e7eb" ++
  ";\n        border-radius: 4px;\n        padding: 15px;\n        overflow-x: auto;\n      \x7d\n      \n      " ++
  ".json-content \x7b\n        font-family: 'Monaco', 'Menlo', 'Ubuntu Mono', monospace;\n" ++
  "        font-size: 0.9em;\n        white-space: pre-wrap;\n        margin: 0;\n      \x7d\n      \n      " ++
  styling.customCSS.getD "" ++ "\n    "

/-- `renderDataAsTable` (src/useReportGenerator.ts:232): an HTML table
when the data is a non-empty array whose first element has `typeof`
`'object'` (columns = keys of the first element, `Object.keys` throwing
on a `null` record), else a pretty-printed JSON block. -/
def renderDataAsTable (data : JValue) : Except String String :=
  match data with
  | .array (x :: xs) =>
    if jsTypeof x = "object" then do
      let keys ← objectKeys x
      let headerRow := concatAll (keys.map (fun k => "<th>" ++ k ++ "</th>"))
      let rows ← mapExcept (fun item => do
          let cells ← mapExcept (fun k => do
              let v ← jget item k
              .ok ("<td>" ++ (if jsTruthy v then jsToString v else "") ++ "</td>"))
            keys
          .ok ("<tr>" ++ concatAll cells ++ "</tr>")) (x :: xs)
      .ok ("\n          <table class=\"data-table\">\n            <thead><tr>" ++
        headerRow ++ "</tr></thead>\n            <tbody>" ++ concatAll rows ++
        "</tbody>\n          </table>\n        ")
    else
      .ok ("\n        <div class=\"json-container\">\n          <pre class=\"json-content\">" ++
        String.mk ((jsonStr data 0).getD "undefined".data) ++
        "</pre>\n        </div>\n      ")
  | _ =>
    .ok ("\n        <div class=\"json-container\">\n          <pre class=\"json-content\">" ++
      String.mk ((jsonStr data 0).getD "undefined".data) ++
      "</pre>\n        </div>\n      ")

/-- `generateHTML` (src/useReportGenerator.ts:145); `nowLocale` is
`new Date().toLocaleString()`. -/
def generateHTML (data : JValue) (options : ReportOptions) (nowLocale : String) :
    Except String String := do
  let styling := mergeStyling options.styling
  let metadata := options.metadata
  let css := cssBlock styling
  let titleStr := if jsTruthy (mget metadata "title")
    then jsToString (mget metadata "title") else "Report"
  let body ← renderDataAsTable data
  .ok ("\n      <!DOCTYPE html>\n      <html lang=\"en\">\n      <head>\n" ++
    "        <meta charset=\"UTF-8\">\n" ++
    "        <meta name=\"viewport\" content=\"width=device-width, initial-scale=1.0\">\n" ++
    "        <title>" ++ titleStr ++ "</title>\n" ++
    "        <style>" ++ css ++ "</style>\n      </head>\n      <body>\n" ++
    "        <div class=\"report-container\">\n          <div class=\"report-header\">\n" ++
    "            <h1 class=\"report-title\">" ++ titleStr ++ "</h1>\n" ++
    "            <div class=\"report-meta\">\n              " ++
    (if jsTruthy (mget metadata "description")
     then "<p>" ++ jsToString (mget metadata "description") ++ "</p>" else "") ++
    "\n              <p>Generated on: " ++ nowLocale ++ "</p>\n              " ++
    (if jsTruthy (mget metadata "author")
     then "<p>Author: " ++ jsToString (mget metadata "author") ++ "</p>" else "") ++
    "\n              " ++
    (if jsTruthy (mget metadata "version")
     then "<p>Version: " ++ jsToString (mget metadata "version") ++ "</p>" else "") ++
    "\n            </div>\n          </div>\n          \n" ++
    "          <div class=\"data-section\">\n            " ++ body ++
    "\n          </div>\n        </div>\n      </body>\n      </html>\n    ")

/-- The per-record listing of `generateText` (`Object.entries` throws on
a `null` record). -/
def textRecords : Nat → List JValue → Except String String
  | _, [] => .ok ""
  | i, item :: rest => do
    let es ← objectEntries item
    let tail ← textRecords (i + 1) rest
    .ok ("Record " ++ natStr (i + 1) ++ ":\n" ++
      concatAll (es.map (fun p => "  " ++ p.1 ++ ": " ++ jsToString p.2 ++ "\n")) ++
      "\n" ++ tail)

/-- `generateText` (src/useReportGenerator.ts:288). -/
def generateText (data : JValue) (options : ReportOptions) (nowLocale : String) :
    Except String String := do
  let metadata := options.metadata
  let title := mget metadata "title"
  let desc := mget metadata "description"
  let author := mget metadata "author"
  let head :=
    (if jsTruthy title then
       jsToString title ++ "\n" ++
       String.mk (List.replicate (jsLength title) '=') ++ "\n\n"
     else "") ++
    (if jsTruthy desc then jsToString desc ++ "\n\n" else "") ++
    "Generated on: " ++ nowLocale ++ "\n" ++
    (if jsTruthy author then "Author: " ++ jsToString author ++ "\n" else "") ++
    "\n"
  match data with
  | .array items => do
    let recs ← textRecords 0 items
    .ok (head ++ recs)
  | _ => .ok (head ++ String.mk ((jsonStr data 0).getD "undefined".data))

/-! ## Packaging, registry state and the report operations -/

/-- `new Date().toISOString().replace(/[:.]/g, '-').slice(0, -5)`. -/
def tsSlug (nowIso : String) : String :=
  let repl := nowIso.data.map (fun c => if c = ':' || c = '.' then '-' else c)
  String.mk (repl.take (repl.length - 5))

/-- `generateFilename` (src/useReportGenerator.ts:82): base name (falsy →
`'report'`), optional sortable timestamp (on unless `includeTimestamp`
is exactly `false`), format extension. -/
def generateFilename (options : ReportOptions) (nowIso : String) : String :=
  let base := match options.filename with
    | some s => if s = "" then "report" else s
    | none => "report"
  let withTs := match options.includeTimestamp with
    | some false => base
    | _ => base ++ "_" ++ tsSlug nowIso
  withTs ++ "." ++ formatStr options.format

/-- `ReportGeneratorError` (src/useReportGenerator.ts:56); `details`
identifies the underlying `Error` by its message. -/
structure ReportGeneratorError where
  code : String
  message : String
  details : Option String

/-- `GeneratedReport` (src/useReportGenerator.ts:48); the blob is its
payload string plus MIME type, `size` its UTF-8 byte count. -/
structure GeneratedReport where
  content : String
  mimeType : String
  filename : String
  size : Nat
  format : ReportFormat
  downloadUrl : String

/-- The `useState` cells of `useReportGenerator`, plus a counter
delivering fresh object URLs (`URL.createObjectURL`). -/
structure RGState where
  isGenerating : Bool
  progress : ℚ
  error : Option ReportGeneratorError
  generatedReports : List GeneratedReport
  nextUrlId : Nat

/-- Hook state right after `useReportGenerator()` mounts. -/
def rgInit : RGState :=
  { isGenerating := false, progress := 0, error := none,
    generatedReports := [], nextUrlId := 0 }

/-- The host clock readings a `generateReport` call observes. -/
structure RGEnv where
  nowIso : String
  nowLocale : String

/-- The `switch (options.format)` of `generateReport`
(src/useReportGenerator.ts:359): content and MIME type, or the thrown
error's message. -/
def formatContent (env : RGEnv) (data : JValue) (options : ReportOptions) :
    Except String (String × String) :=
  match options.format with
  | .json => .ok (generateJSON data options.metadata env.nowIso, "application/json")
  | .csv => do
    let c ← generateCSV data
    .ok (c, "text/csv")
  | .html => do
    let c ← generateHTML data options env.nowLocale
    .ok (c, "text/html")
  | .txt => do
    let c ← generateText data options env.nowLocale
    .ok (c, "text/plain")
  | f => .error ("Unsupported format: " ++ formatStr f)

/-- Observable result of one `generateReport` call. -/
structure RGResult where
  state : RGState
  ret : Option GeneratedReport

/-- `generateReport` (src/useReportGenerator.ts:344) as a state
transition: on a formatting failure the `catch` stores a
`GENERATION_ERROR` and returns `null` (progress stuck at the 25 set
before the `switch`); on success the packaged report is appended and
returned; the `finally` clears `isGenerating` either way. -/
def rgGenerateReport (env : RGEnv) (data : JValue) (options : ReportOptions)
    (s : RGState) : RGResult :=
  match formatContent env data options with
  | .error msg =>
    { state := { isGenerating := false, progress := 25,
                 error := some { code := "GENERATION_ERROR", message := msg,
                                 details := some msg },
                 generatedReports := s.generatedReports,
                 nextUrlId := s.nextUrlId }
      ret := none }
  | .ok (content, mime) =>
    let filename := generateFilename options env.nowIso
    let url := "blob:" ++ natStr s.nextUrlId
    let report : GeneratedReport :=
      { content := content, mimeType := mime, filename := filename,
        size := content.utf8ByteSize, format := options.format,
        downloadUrl := url }
    { state := { isGenerating := false, progress := 100, error := none,
                 generatedReports := s.generatedReports ++ [report],
                 nextUrlId := s.nextUrlId + 1 }
      ret := some report }

/-- Worker for `generateMultipleReports` (src/useReportGenerator.ts:424). -/
def rgGenerateMultipleAux (env : RGEnv) (data : JValue) (base : ReportOptions)
    (total : Nat) : Nat → List ReportFormat → RGState →
    RGState × List GeneratedReport
  | _, [], s => (s, [])
  | i, fmt :: rest, s =>
    let r := rgGenerateReport env data { base with format := fmt } s
    let p : ℚ := ((i + 1 : ℚ) / (total : ℚ)) * 100
    let s2 : RGState := { r.state with progress := p }
    let out := rgGenerateMultipleAux env data base total (i + 1) rest s2
    (out.1, match r.ret with | some rep => rep :: out.2 | none => out.2)

/-- `generateMultipleReports`: one `generateReport` per format tag. -/
def rgGenerateMultiple (env : RGEnv) (data : JValue)
    (formats : List ReportFormat) (base : ReportOptions) (s : RGState) :
    RGState × List GeneratedReport :=
  rgGenerateMultipleAux env data base formats.length 0 formats s

/-- `clearReports` (src/useReportGenerator.ts:451): revoke every
registered download URL (returned in order as the second component),
then empty the registry, clear the error and reset progress. -/
def clearReports (s : RGState) : RGState × List String :=
  ({ s with generatedReports := [], error := none, progress := 0 },
   s.generatedReports.map (fun r => r.downloadUrl))

/-! ## Reachable registry states (for the list invariants) -/

/-- A registry entry is good when it is the packaging of some
successfully formatted content. -/
def GoodReportEntry (r : GeneratedReport) : Prop :=
  ∃ env data options content mime url,
    formatContent env data options = .ok (content, mime) ∧
    r = { content := content, mimeType := mime,
          filename := generateFilename options env.nowIso,
          size := content.utf8ByteSize, format := options.format,
          downloadUrl := url }

/-- The states the report hook can reach from mount through its public
operations. -/
inductive RGReachable : RGState → Prop where
  | init : RGReachable rgInit
  | genReport (env : RGEnv) (data : JValue) (options : ReportOptions)
      {s : RGState} : RGReachable s →
      RGReachable (rgGenerateReport env data options s).state
  | genMultiple (env : RGEnv) (data : JValue) (formats : List ReportFormat)
      (base : ReportOptions) {s : RGState} : RGReachable s →
      RGReachable (rgGenerateMultiple env data formats base s).1
  | clear {s : RGState} : RGReachable s → RGReachable (clearReports s).1

/-! ### The CSV contract as the spec words it (for the refinement proof) -/

/-- One CSV cell, following the spec's words: null/undefined render as the
empty string; a value containing a comma, quote, or newline is wrapped in
quotes with internal quotes doubled. -/
def specCell (v : JValue) : String :=
  match v with
  | .null => ""
  | .undefined => ""
  | w =>
    let s := jsToString w
    if s.data.contains ',' || s.data.contains '"' || s.data.contains '\n' then
      "\"" ++ String.mk (s.data.flatMap (fun c => if c = '"' then ['"', '"'] else [c])) ++ "\""
    else s

/-- The CSV document, following the spec's words: a header row whose
columns are the union of all keys across all records in first-seen order,
then one row per record in input order, a missing key rendering empty. -/
def csvSpec (records : List (List (String × JValue))) : String :=
  let keys := dedupFirst ((records.map (fun r => r.map Prod.fst)).flatten)
  joinWith "\n" (joinWith "," keys ::
    records.map (fun r => joinWith "," (keys.map (fun k => specCell (getField r k)))))

/-! ### Sample inputs used to instantiate the theorems -/

/-- Fixed clock readings. -/
def sampleEnv : RGEnv :=
  { nowIso := "2025-01-01T00:00:00.000Z", nowLocale := "1/1/2025, 12:00:00 AM" }

/-- Minimal options requesting a CSV report. -/
def csvOptions : ReportOptions :=
  { filename := none, format := .csv, metadata := .undefined,
    template := none, styling := none, compression := none,
    includeTimestamp := none }

/-- Minimal options requesting the unsupported PDF format. -/
def pdfOptions : ReportOptions :=
  { csvOptions with format := .pdf }

/-- The report produced by a CSV `generateReport` on non-array data from
the mount state. -/
def sampleCsvReport : GeneratedReport :=
  { content := "", mimeType := "text/csv",
    filename := generateFilename csvOptions sampleEnv.nowIso,
    size := 0, format := .csv, downloadUrl := "blob:" ++ natStr 0 }

end ReportGen

namespace FileProc

/-! ## Reachable processor states (for the list invariants) -/

/-- A processed-files entry is good when its file passed validation, its
read succeeded un-aborted, and it is the metric record built from it. -/
def GoodProcessedEntry (pf : ProcessedFile) : Prop :=
  ∃ vo po hash f,
    validateFileE vo f = .ok () ∧ f.readFails = false ∧ f.aborted = false ∧
    pf = mkProcessedFile po hash f

/-- The states the processor hook can reach from mount through its public
operations. -/
inductive FPReachable : FPState → Prop where
  | init : FPReachable fpInit
  | procFile (vo : FileValidationOptions) (po : FileProcessingOptions)
      (hash : String → String) (f : JsFile) {s : FPState} : FPReachable s →
      FPReachable (fpProcessFile vo po hash f s).state
  | procFiles (vo : FileValidationOptions) (po : FileProcessingOptions)
      (hash : String → String) (files : List JsFile) {s : FPState} :
      FPReachable s → FPReachable (fpProcessFiles vo po hash files s).1
  | clear {s : FPState} : FPReachable s → FPReachable (clearProcessedFiles s)
  | abort {s : FPState} : FPReachable s → FPReachable (abortProcessing s)
  | validate (vo : FileValidationOptions) (f : JsFile) {s : FPState} :
      FPReachable s → FPReachable (fpValidateFile vo f s).1

/-- The processed-file record of the sample text file. -/
def sampleProcessedEntry : ProcessedFile :=
  mkProcessedFile defaultProcessing (fun _ => "sha") sampleTxtFile

end FileProc

/-!
## Theorems

Each claim of the specification is settled by one theorem below; helper
lemmas precede the claim theorems that use them.
-/

namespace FileProc

/-- C1 (counterexample): the claim quantifies over every configured rule
set, but a configured maximum size of `0` is falsy in JavaScript, so the
max-size check is skipped entirely: a 5-byte file exceeds the configured
maximum of 0 bytes and still validates successfully. -/
theorem C1_maxZero_counterexample :
    validateFileE maxZeroOptions sampleTxtFile = .ok () ∧
    maxZeroOptions.maxSize = some 0 ∧ sampleTxtFile.size > 0 :=
  ⟨rfl, rfl, by decide⟩

/-- C1 (amended): `validateFile` checks max-size, min-size, MIME-type
allow-list, extension allow-list, then the custom predicate, in that order
and short-circuiting on the first failure, **where each size bound is
truthiness-guarded (a bound of 0 or `undefined` disables its check)**: a
file passing every (enabled) rule validates successfully, and the first
violated rule determines the `VALIDATION_ERROR` (carrying the file and a
message naming that rule) regardless of later rules. -/
theorem C1_validateFile_rule_order (vo : FileValidationOptions) (f : JsFile) :
    (passMax vo f = true → passMin vo f = true → passType vo f = true →
      passExt vo f = true → passCustom vo f = true →
      validateFileE vo f = .ok ()) ∧
    (passMax vo f = false →
      validateFileE vo f = .error (vErr f ("File size (" ++ toString f.size ++
        " bytes) exceeds maximum allowed size (" ++
        toString (vo.maxSize.getD 0) ++ " bytes)"))) ∧
    (passMax vo f = true → passMin vo f = false →
      validateFileE vo f = .error (vErr f ("File size (" ++ toString f.size ++
        " bytes) is below minimum required size (" ++
        toString (vo.minSize.getD 0) ++ " bytes)"))) ∧
    (passMax vo f = true → passMin vo f = true → passType vo f = false →
      validateFileE vo f = .error (vErr f ("File type '" ++ f.type ++
        "' is not allowed"))) ∧
    (passMax vo f = true → passMin vo f = true → passType vo f = true →
      passExt vo f = false →
      validateFileE vo f = .error (vErr f ("File extension '" ++
        fileExtension f.name ++ "' is not allowed"))) ∧
    (passMax vo f = true → passMin vo f = true → passType vo f = true →
      passExt vo f = true → passCustom vo f = false →
      validateFileE vo f = .error (vErr f "File failed custom validation")) := by
  refine ⟨?_, ?_, ?_, ?_, ?_, ?_⟩
  · intro h1 h2 h3 h4 h5
    simp only [passMax, Bool.not_eq_true'] at h1
    simp only [passMin, Bool.not_eq_true'] at h2
    simp only [passType, Bool.not_eq_true'] at h3
    simp only [passExt, Bool.not_eq_true'] at h4
    unfold validateFileE
    rw [if_neg (by rw [h1]; simp), if_neg (by rw [h2]; simp), if_neg (by rw [h3]; simp),
      if_neg (by rw [h4]; simp)]
    cases hc : vo.customValidator with
    | none => rfl
    | some v =>
      simp only [passCustom, hc] at h5
      simp [h5]
  · intro h1
    simp only [passMax, Bool.not_eq_false'] at h1
    unfold validateFileE
    rw [if_pos h1]
  · intro h1 h2
    simp only [passMax, Bool.not_eq_true'] at h1
    simp only [passMin, Bool.not_eq_false'] at h2
    unfold validateFileE
    rw [if_neg (by rw [h1]; simp), if_pos h2]
  · intro h1 h2 h3
    simp only [passMax, Bool.not_eq_true'] at h1
    simp only [passMin, Bool.not_eq_true'] at h2
    simp only [passType, Bool.not_eq_false'] at h3
    unfold validateFileE
    rw [if_neg (by rw [h1]; simp), if_neg (by rw [h2]; simp), if_pos h3]
  · intro h1 h2 h3 h4
    simp only [passMax, Bool.not_eq_true'] at h1
    simp only [passMin, Bool.not_eq_true'] at h2
    simp only [passType, Bool.not_eq_true'] at h3
    simp only [passExt, Bool.not_eq_false'] at h4
    unfold validateFileE
    rw [if_neg (by rw [h1]; simp), if_neg (by rw [h2]; simp), if_neg (by rw [h3]; simp),
      if_pos h4]
  · intro h1 h2 h3 h4 h5
    simp only [passMax, Bool.not_eq_true'] at h1
    simp only [passMin, Bool.not_eq_true'] at h2
    simp only [passType, Bool.not_eq_true'] at h3
    simp only [passExt, Bool.not_eq_true'] at h4
    unfold validateFileE
    rw [if_neg (by rw [h1]; simp), if_neg (by rw [h2]; simp), if_neg (by rw [h3]; simp),
      if_neg (by rw [h4]; simp)]
    cases hc : vo.customValidator with
    | none => simp [passCustom, hc] at h5
    | some v =>
      simp only [passCustom, hc] at h5
      simp [h5]

/-- C1 witness: under the default rule set, the sample file passes every
rule and validates successfully. -/
theorem C1_validateFile_rule_order_witness :
    validateFileE defaultValidation sampleTxtFile = .ok () :=
  (C1_validateFile_rule_order defaultValidation sampleTxtFile).1
    (by decide) (by decide) (by decide) (by decide) (by decide)

/-- Helper: what one `processFile` call returns depends only on the file
and the options, never on the incoming hook state. -/
theorem fpProcessFile_ret (vo : FileValidationOptions) (po : FileProcessingOptions)
    (hash : String → String) (f : JsFile) (s : FPState) :
    (fpProcessFile vo po hash f s).ret = (processFileCore vo po hash f).toOption := by
  unfold fpProcessFile
  cases processFileCore vo po hash f <;> rfl

/-- Helper: the successes collected by the batch loop are exactly the
per-file successes, in input order. -/
theorem fpProcessFilesAux_results (vo : FileValidationOptions)
    (po : FileProcessingOptions) (hash : String → String) (total : Nat)
    (files : List JsFile) :
    ∀ i s, (fpProcessFilesAux vo po hash total i files s).2.1 =
      files.filterMap (fun f => (processFileCore vo po hash f).toOption) := by
  induction files with
  | nil => intro i s; rfl
  | cons f rest ih =>
    intro i s
    cases h : processFileCore vo po hash f with
    | error e =>
      simp [fpProcessFilesAux, fpProcessFile, h, List.filterMap_cons,
        Except.toOption, ih]
    | ok pf =>
      simp [fpProcessFilesAux, fpProcessFile, h, List.filterMap_cons,
        Except.toOption, ih]

/-- Helper: the overall-progress values assigned by the batch loop. -/
theorem fpProcessFilesAux_progress (vo : FileValidationOptions)
    (po : FileProcessingOptions) (hash : String → String) (total : Nat)
    (files : List JsFile) :
    ∀ i s, (fpProcessFilesAux vo po hash total i files s).2.2 =
      (List.range files.length).map
        (fun (j : Nat) => (((i : ℚ) + (j : ℚ) + 1) / (total : ℚ)) * 100) := by
  induction files with
  | nil => intro i s; simp [fpProcessFilesAux]
  | cons f rest ih =>
    intro i s
    simp only [fpProcessFilesAux, List.length_cons, List.range_succ_eq_map,
      List.map_cons, List.map_map, ih]
    congr 1
    · push_cast; ring
    · congr 1
      funext j
      simp only [Function.comp]
      push_cast; ring

/-- C2: `processFiles` handles the files one at a time in input order; a
failing item is skipped rather than halting the batch; the result list is
exactly the per-file successes in input order; and the overall progress
reported after item `i` of `N` is `((i+1)/N)*100`, strictly increasing. -/
theorem C2_processFiles_batch (vo : FileValidationOptions)
    (po : FileProcessingOptions) (hash : String → String)
    (files : List JsFile) (s : FPState) :
    (fpProcessFiles vo po hash files s).2.1 =
      files.filterMap (fun f => (processFileCore vo po hash f).toOption) ∧
    (fpProcessFiles vo po hash files s).2.2 =
      (List.range files.length).map
        (fun (i : Nat) => (((i : ℚ) + 1) / (files.length : ℚ)) * 100) ∧
    (fpProcessFiles vo po hash files s).2.2.Pairwise (· < ·) := by
  have hp := fpProcessFilesAux_progress vo po hash files.length files 0 s
  refine ⟨fpProcessFilesAux_results vo po hash files.length files 0 s, ?_, ?_⟩
  · rw [fpProcessFiles, hp]
    congr 1
    funext j
    push_cast; ring
  · rw [fpProcessFiles, hp]
    rcases Nat.eq_zero_or_pos files.length with h0 | hpos
    · simp [h0]
    · rw [List.pairwise_map]
      refine (List.pairwise_lt_range _).imp ?_
      intro a b hab
      have hN : (0 : ℚ) < (files.length : ℚ) := by exact_mod_cast hpos
      have h2 : ((0 : ℚ) + (a : ℚ) + 1) / (files.length : ℚ) <
          ((0 : ℚ) + (b : ℚ) + 1) / (files.length : ℚ) := by
        refine (div_lt_div_iff_of_pos_right hN).mpr ?_
        have : (a : ℚ) < (b : ℚ) := by exact_mod_cast hab
        linarith
      exact mul_lt_mul_of_pos_right h2 (by norm_num)

/-- C3: `countWords` splits on whitespace runs, discards empty tokens and
counts the rest, giving 3 on the sample; `countLines` counts
newline-delimited segments including a trailing empty one, giving 3 and 4
on the samples; and every `ProcessedFile` the pipeline constructs has
`characterCount` equal to the length of its content string. -/
theorem C3_counts :
    countWords "  a  b\tc\n" = 3 ∧
    countLines "a\nb\nc" = 3 ∧
    countLines "a\nb\nc\n" = 4 ∧
    ∀ (po : FileProcessingOptions) (hash : String → String) (f : JsFile),
      (mkProcessedFile po hash f).characterCount =
        (mkProcessedFile po hash f).content.length :=
  ⟨by decide, by decide, by decide, fun _ _ _ => rfl⟩

end FileProc

namespace ReportGen

/-- C9: `clearReports` revokes the download URL of every entry currently
in the registry (in order), and afterwards the registry is empty, the
error slot is cleared and progress is reset to 0. -/
theorem C9_clearReports (s : RGState) :
    (clearReports s).2 = s.generatedReports.map (fun r => r.downloadUrl) ∧
    (clearReports s).1.generatedReports = [] ∧
    (clearReports s).1.error = none ∧
    (clearReports s).1.progress = 0 :=
  ⟨rfl, rfl, rfl, rfl⟩

/-- C7: for a format tag outside {json, csv, html, txt} (i.e. `pdf` or
`xlsx`), `generateReport` returns `null`, stores a `GENERATION_ERROR`
whose message names the unsupported format, and appends nothing to the
registry. -/
theorem C7_unsupported_format (env : RGEnv) (data : JValue)
    (options : ReportOptions) (s : RGState)
    (h : options.format = .pdf ∨ options.format = .xlsx) :
    (rgGenerateReport env data options s).ret = none ∧
    (rgGenerateReport env data options s).state.error =
      some { code := "GENERATION_ERROR",
             message := "Unsupported format: " ++ formatStr options.format,
             details := some ("Unsupported format: " ++ formatStr options.format) } ∧
    (rgGenerateReport env data options s).state.generatedReports =
      s.generatedReports := by
  have hfc : formatContent env data options =
      .error ("Unsupported format: " ++ formatStr options.format) := by
    rcases h with h | h <;> (unfold formatContent; rw [h])
  unfold rgGenerateReport
  rw [hfc]
  exact ⟨rfl, rfl, rfl⟩

/-- C7 witness: a concrete PDF request from the mount state. -/
theorem C7_unsupported_format_witness :
    (rgGenerateReport sampleEnv (.object []) pdfOptions rgInit).ret = none ∧
    (rgGenerateReport sampleEnv (.object []) pdfOptions rgInit).state.error =
      some { code := "GENERATION_ERROR",
             message := "Unsupported format: " ++ formatStr pdfOptions.format,
             details := some ("Unsupported format: " ++ formatStr pdfOptions.format) } ∧
    (rgGenerateReport sampleEnv (.object []) pdfOptions rgInit).state.generatedReports =
      rgInit.generatedReports :=
  C7_unsupported_format sampleEnv (.object []) pdfOptions rgInit (Or.inl rfl)

/-- C10: `generateCSV` returns the empty string on every non-array input
and on the empty array, and a CSV report generated from such data is a
successfully produced empty payload, not an error. -/
theorem C10_generateCSV_empty (v : JValue) (hv : ∀ xs, v ≠ .array xs) :
    generateCSV v = .ok "" ∧
    generateCSV (.array []) = .ok "" ∧
    (∀ env options s, options.format = .csv →
      ∃ r, (rgGenerateReport env v options s).ret = some r ∧ r.content = "") := by
  have hcsv : generateCSV v = .ok "" := by
    cases v
    case array xs => exact absurd rfl (hv xs)
    all_goals rfl
  refine ⟨hcsv, rfl, ?_⟩
  intro env options s hfmt
  have hfc : formatContent env v options = .ok ("", "text/csv") := by
    unfold formatContent
    rw [hfmt, hcsv]
    rfl
  unfold rgGenerateReport
  rw [hfc]
  exact ⟨_, rfl, rfl⟩

/-- C10 witness: a plain object (non-array) through the CSV pipeline. -/
theorem C10_generateCSV_empty_witness :
    generateCSV (.object []) = .ok "" ∧
    (∃ r, (rgGenerateReport sampleEnv (.object []) csvOptions rgInit).ret = some r ∧
      r.content = "") :=
  ⟨(C10_generateCSV_empty (.object []) (fun _ h => JValue.noConfusion h)).1,
   (C10_generateCSV_empty (.object []) (fun _ h => JValue.noConfusion h)).2.2
     sampleEnv csvOptions rgInit rfl⟩

/-- Reduction of an `Except` bind on a success value. -/
theorem ok_bind {e a b : Type} (x : a) (f : a → Except e b) :
    (Except.ok x : Except e a) >>= f = f x := rfl

/-- Helper: `Object.keys` over a list of records. -/
theorem mapExcept_keys (records : List (List (String × JValue))) :
    mapExcept objectKeys (records.map JValue.object) =
      .ok (records.map (fun r => r.map Prod.fst)) := by
  induction records with
  | nil => rfl
  | cons r rest ih => simp [mapExcept, objectKeys, ih, ok_bind]

/-- Helper: a CSV row of an object record: each column looked up. -/
theorem csvRow_object (keys : List String) (r : List (String × JValue)) :
    csvRow keys (.object r) =
      .ok (joinWith "," (keys.map (fun k => csvCell (getField r k)))) := by
  unfold csvRow
  have hmap : ∀ ks : List String,
      mapExcept (fun k => do
        let v ← jget (.object r) k
        Except.ok (csvCell v)) ks =
      .ok (ks.map (fun k => csvCell (getField r k))) := by
    intro ks
    induction ks with
    | nil => rfl
    | cons k kt ih =>
      have h1 : mapExcept (fun k => do
            let v ← jget (JValue.object r) k
            Except.ok (csvCell v)) (k :: kt) =
          (do
            let ys ← mapExcept (fun k => do
              let v ← jget (JValue.object r) k
              Except.ok (csvCell v)) kt
            Except.ok (csvCell (getField r k) :: ys)) := rfl
      rw [h1, ih]
      rfl
  rw [hmap keys]
  rfl

/-- Helper: all CSV rows of a record list. -/
theorem mapExcept_rows (keys : List String)
    (records : List (List (String × JValue))) :
    mapExcept (csvRow keys) (records.map JValue.object) =
      .ok (records.map
        (fun r => joinWith "," (keys.map (fun k => csvCell (getField r k))))) := by
  induction records with
  | nil => rfl
  | cons r rest ih => simp [mapExcept, csvRow_object, ih, ok_bind]

/-- Helper: the code's cell rendering coincides with the spec's. -/
theorem csvCell_eq_specCell (v : JValue) : csvCell v = specCell v := by
  cases v <;> rfl

/-- C4: on a non-empty array of records, `generateCSV` emits the header
of all keys (union, first-seen order) and one row per record in input
order, with null/undefined empty and comma/quote/newline cells quoted and
internally doubled — i.e. exactly the spec-side document — and on
`[{a:1,b:"x,y"},{a:2}]` the output is `a,b`, `1,"x,y"`, `2,`. -/
theorem C4_generateCSV (records : List (List (String × JValue)))
    (h : records ≠ []) :
    generateCSV (.array (records.map JValue.object)) = .ok (csvSpec records) ∧
    generateCSV (.array [.object [("a", .number 1), ("b", .string "x,y")],
      .object [("a", .number 2)]]) = .ok "a,b\n1,\"x,y\"\n2," := by
  refine ⟨?_, rfl⟩
  simp only [generateCSV]
  have hlen : ¬((records.map JValue.object).length = 0) := by
    simpa [List.length_eq_zero] using h
  rw [if_neg hlen]
  simp [mapExcept_keys, mapExcept_rows, ok_bind, csvSpec, csvCell_eq_specCell]

/-- C4 witness: a one-record instance of the refinement. -/
theorem C4_generateCSV_witness :
    generateCSV (.array [JValue.object [("a", .number 1)]]) =
      .ok (csvSpec [[("a", .number 1)]]) :=
  (C4_generateCSV [[("a", .number 1)]] (List.cons_ne_nil _ _)).1

end ReportGen

namespace FileProc

/-- Helper: every error `validateFile` produces carries the code
`VALIDATION_ERROR`. -/
theorem validateFileE_code (vo : FileValidationOptions) (f : JsFile)
    (e : FileProcessorError) (h : validateFileE vo f = .error e) :
    e.code = "VALIDATION_ERROR" := by
  unfold validateFileE at h
  by_cases h1 : (truthyNat vo.maxSize && decide (f.size > vo.maxSize.getD 0)) = true
  · rw [if_pos h1] at h; cases h; rfl
  · rw [if_neg h1] at h
    by_cases h2 : (truthyNat vo.minSize && decide (f.size < vo.minSize.getD 0)) = true
    · rw [if_pos h2] at h; cases h; rfl
    · rw [if_neg h2] at h
      by_cases h3 : (vo.allowedTypes.isSome &&
          !(vo.allowedTypes.getD []).contains f.type) = true
      · rw [if_pos h3] at h; cases h; rfl
      · rw [if_neg h3] at h
        by_cases h4 : (vo.allowedExtensions.isSome &&
            !(vo.allowedExtensions.getD []).contains (fileExtension f.name)) = true
        · rw [if_pos h4] at h; cases h; rfl
        · rw [if_neg h4] at h
          cases hc : vo.customValidator with
          | none => rw [hc] at h; cases h
          | some v =>
            rw [hc] at h
            replace h : (if v f = true then Except.ok ()
                else Except.error (vErr f "File failed custom validation")) =
                Except.error e := h
            by_cases h5 : v f = true
            · rw [if_pos h5] at h; cases h
            · rw [if_neg h5] at h; cases h; rfl

/-- Helper: every failure of one `processFile` run carries either the
validation or the processing error code. -/
theorem processFileCore_error_code (vo : FileValidationOptions)
    (po : FileProcessingOptions) (hash : String → String) (f : JsFile)
    (e : FileProcessorError) (h : processFileCore vo po hash f = .error e) :
    e.code = "VALIDATION_ERROR" ∨ e.code = "PROCESSING_ERROR" := by
  unfold processFileCore at h
  cases hv : validateFileE vo f with
  | error e' =>
    rw [hv] at h
    injection h with he
    subst he
    exact Or.inl (validateFileE_code vo f _ hv)
  | ok u =>
    rw [hv] at h
    by_cases hr : f.readFails
    · rw [if_pos hr] at h
      cases h
      exact Or.inr rfl
    · rw [if_neg hr] at h
      by_cases ha : f.aborted
      · rw [if_pos ha] at h
        cases h
        exact Or.inr rfl
      · rw [if_neg ha] at h
        cases h

/-- Helper: one `processFile` call either leaves the processed list
unchanged (failure) or appends exactly one good entry (success). -/
theorem fpProcessFile_appends (vo : FileValidationOptions)
    (po : FileProcessingOptions) (hash : String → String) (f : JsFile)
    (s : FPState) :
    (fpProcessFile vo po hash f s).state.processedFiles = s.processedFiles ∨
    ∃ pf, GoodProcessedEntry pf ∧
      (fpProcessFile vo po hash f s).state.processedFiles =
        s.processedFiles ++ [pf] := by
  unfold fpProcessFile
  cases h : processFileCore vo po hash f with
  | error e => exact Or.inl rfl
  | ok pf =>
    refine Or.inr ⟨pf, ?_, rfl⟩
    unfold processFileCore at h
    cases hv : validateFileE vo f with
    | error e => rw [hv] at h; cases h
    | ok u =>
      rw [hv] at h
      by_cases hr : f.readFails
      · rw [if_pos hr] at h; cases h
      · rw [if_neg hr] at h
        by_cases ha : f.aborted
        · rw [if_pos ha] at h; cases h
        · rw [if_neg ha] at h
          cases h
          exact ⟨vo, po, hash, f, hv, by simpa using hr, by simpa using ha, rfl⟩

/-- Helper: the batch loop only ever appends good entries. -/
theorem fpProcessFilesAux_invariant (vo : FileValidationOptions)
    (po : FileProcessingOptions) (hash : String → String) (total : Nat)
    (files : List JsFile) :
    ∀ i s pf,
      pf ∈ (fpProcessFilesAux vo po hash total i files s).1.processedFiles →
      pf ∈ s.processedFiles ∨ GoodProcessedEntry pf := by
  induction files with
  | nil => intro i s pf h; exact Or.inl h
  | cons f rest ih =>
    intro i s pf h
    simp only [fpProcessFilesAux] at h
    rcases ih (i + 1) _ pf h with hmem | hgood
    · rcases fpProcessFile_appends vo po hash f s with heq | ⟨pf', hg, heq⟩
      · rw [show ({ (fpProcessFile vo po hash f s).state with
            progress := ((i : ℚ) + 1) / (total : ℚ) * 100 } : FPState).processedFiles =
            (fpProcessFile vo po hash f s).state.processedFiles from rfl,
          heq] at hmem
        exact Or.inl hmem
      · rw [show ({ (fpProcessFile vo po hash f s).state with
            progress := ((i : ℚ) + 1) / (total : ℚ) * 100 } : FPState).processedFiles =
            (fpProcessFile vo po hash f s).state.processedFiles from rfl,
          heq] at hmem
        rcases List.mem_append.mp hmem with h1 | h2
        · exact Or.inl h1
        · exact Or.inr ((List.mem_singleton.mp h2) ▸ hg)
    · exact Or.inr hgood

end FileProc

namespace ReportGen

/-- Helper: one `generateReport` call either leaves the registry
unchanged (failure) or appends exactly one good entry (success). -/
theorem rgGenerateReport_appends (env : RGEnv) (data : JValue)
    (options : ReportOptions) (s : RGState) :
    (rgGenerateReport env data options s).state.generatedReports =
      s.generatedReports ∨
    ∃ r, GoodReportEntry r ∧
      (rgGenerateReport env data options s).state.generatedReports =
        s.generatedReports ++ [r] := by
  unfold rgGenerateReport
  cases h : formatContent env data options with
  | error msg => exact Or.inl rfl
  | ok cm =>
    cases cm with
    | mk content mime =>
      exact Or.inr ⟨_, ⟨env, data, options, content, mime, _, h, rfl⟩, rfl⟩

/-- Helper: the multi-format loop only ever appends good entries. -/
theorem rgGenerateMultipleAux_invariant (env : RGEnv) (data : JValue)
    (base : ReportOptions) (total : Nat) (formats : List ReportFormat) :
    ∀ i s r,
      r ∈ (rgGenerateMultipleAux env data base total i formats s).1.generatedReports →
      r ∈ s.generatedReports ∨ GoodReportEntry r := by
  induction formats with
  | nil => intro i s r h; exact Or.inl h
  | cons fmt rest ih =>
    intro i s r h
    simp only [rgGenerateMultipleAux] at h
    rcases ih (i + 1) _ r h with hmem | hgood
    · rcases rgGenerateReport_appends env data { base with format := fmt } s with
        heq | ⟨r', hg, heq⟩
      · rw [show ({ (rgGenerateReport env data { base with format := fmt } s).state with
            progress := ((i : ℚ) + 1) / (total : ℚ) * 100 } : RGState).generatedReports =
            (rgGenerateReport env data { base with format := fmt } s).state.generatedReports
            from rfl, heq] at hmem
        exact Or.inl hmem
      · rw [show ({ (rgGenerateReport env data { base with format := fmt } s).state with
            progress := ((i : ℚ) + 1) / (total : ℚ) * 100 } : RGState).generatedReports =
            (rgGenerateReport env data { base with format := fmt } s).state.generatedReports
            from rfl, heq] at hmem
        rcases List.mem_append.mp hmem with h1 | h2
        · exact Or.inl h1
        · exact Or.inr ((List.mem_singleton.mp h2) ▸ hg)
    · exact Or.inr hgood

end ReportGen

open FileProc ReportGen in
/-- C6: every failure inside `processFile` is captured as a structured
error value (with the validation or processing code), stored in the error
slot, delivered to the `onError` callback, and the call returns `null`;
every failure inside `generateReport` is captured as a structured
`GENERATION_ERROR`, stored in the error slot, and the call returns `null`
(the report hook exposes no error callback, so there is nothing further
to deliver there).  Nothing propagates as an uncaught fault: the
operations are total state transitions. -/
theorem C6_errors_structured :
    (∀ (vo : FileValidationOptions) (po : FileProcessingOptions)
       (hash : String → String) (f : JsFile) (s : FPState)
       (e : FileProcessorError), processFileCore vo po hash f = .error e →
       (fpProcessFile vo po hash f s).ret = none ∧
       (fpProcessFile vo po hash f s).state.error = some e ∧
       e ∈ (fpProcessFile vo po hash f s).onErrorCalls ∧
       (e.code = "VALIDATION_ERROR" ∨ e.code = "PROCESSING_ERROR")) ∧
    (∀ (env : RGEnv) (data : JValue) (options : ReportOptions) (s : RGState)
       (msg : String), formatContent env data options = .error msg →
       (rgGenerateReport env data options s).ret = none ∧
       (rgGenerateReport env data options s).state.error =
         some { code := "GENERATION_ERROR", message := msg,
                details := some msg }) := by
  constructor
  · intro vo po hash f s e h
    unfold fpProcessFile
    rw [h]
    exact ⟨rfl, rfl, List.Mem.head _, processFileCore_error_code vo po hash f e h⟩
  · intro env data options s msg h
    unfold rgGenerateReport
    rw [h]
    exact ⟨rfl, rfl⟩

open FileProc ReportGen in
/-- C6 witness: a failing read and an unsupported format, concretely. -/
theorem C6_errors_structured_witness :
    (fpProcessFile defaultValidation defaultProcessing (fun _ => "sha")
      sampleBadReadFile fpInit).ret = none ∧
    (fpProcessFile defaultValidation defaultProcessing (fun _ => "sha")
      sampleBadReadFile fpInit).state.error =
      some (pErr sampleBadReadFile "Failed to read file") ∧
    (rgGenerateReport sampleEnv (.object []) pdfOptions rgInit).ret = none := by
  have h1 := (C6_errors_structured).1 defaultValidation defaultProcessing
    (fun _ => "sha") sampleBadReadFile fpInit
    (pErr sampleBadReadFile "Failed to read file") rfl
  have h2 := (C6_errors_structured).2 sampleEnv (.object []) pdfOptions rgInit
    ("Unsupported format: pdf") rfl
  exact ⟨h1.1, h1.2.1, h2.1⟩

open FileProc ReportGen in
/-- C8: in every state either hook can reach from mount, every entry of
the processed-files list is the metric record of a file that passed
validation and whose read completed un-aborted, and every entry of the
generated-reports registry is the packaging of successfully formatted
content; failed attempts never appear in either list. -/
theorem C8_list_invariants :
    (∀ s, FPReachable s → ∀ pf ∈ s.processedFiles, GoodProcessedEntry pf) ∧
    (∀ s, RGReachable s → ∀ r ∈ s.generatedReports, GoodReportEntry r) := by
  constructor
  · intro s hs
    induction hs with
    | init => intro pf h; cases h
    | procFile vo po hash f hprev ih =>
      intro pf h
      rcases fpProcessFile_appends vo po hash f _ with heq | ⟨pf', hg, heq⟩
      · rw [heq] at h; exact ih pf h
      · rw [heq] at h
        rcases List.mem_append.mp h with h1 | h2
        · exact ih pf h1
        · exact (List.mem_singleton.mp h2) ▸ hg
    | procFiles vo po hash files hprev ih =>
      intro pf h
      rcases fpProcessFilesAux_invariant vo po hash files.length files 0 _ pf h with
        h1 | h2
      · exact ih pf h1
      · exact h2
    | clear hprev ih => intro pf h; cases h
    | abort hprev ih => intro pf h; exact ih pf h
    | validate vo f hprev ih =>
      intro pf h
      unfold fpValidateFile at h
      cases hv : validateFileE vo f <;> rw [hv] at h <;> exact ih pf h
  · intro s hs
    induction hs with
    | init => intro r h; cases h
    | genReport env data options hprev ih =>
      intro r h
      rcases rgGenerateReport_appends env data options _ with heq | ⟨r', hg, heq⟩
      · rw [heq] at h; exact ih r h
      · rw [heq] at h
        rcases List.mem_append.mp h with h1 | h2
        · exact ih r h1
        · exact (List.mem_singleton.mp h2) ▸ hg
    | genMultiple env data formats base hprev ih =>
      intro r h
      rcases rgGenerateMultipleAux_invariant env data base formats.length formats
        0 _ r h with h1 | h2
      · exact ih r h1
      · exact h2
    | clear hprev ih => intro r h; cases h

open FileProc ReportGen in
/-- C8 witness: the entries appended by one successful run of each hook
are good. -/
theorem C8_list_invariants_witness :
    GoodProcessedEntry sampleProcessedEntry ∧ GoodReportEntry sampleCsvReport := by
  constructor
  · exact (C8_list_invariants).1 _
      (FPReachable.procFile defaultValidation defaultProcessing (fun _ => "sha")
        sampleTxtFile FPReachable.init)
      sampleProcessedEntry (List.Mem.head _)
  · exact (C8_list_invariants).2 _
      (RGReachable.genReport sampleEnv (.object []) csvOptions RGReachable.init)
      sampleCsvReport (List.Mem.head _)

namespace ReportGen

/-! ### Helper lemmas for the JSON round-trip -/

/-- Rebuilding a string from its characters is the identity. -/
theorem strMk_data (s : String) : String.mk s.data = s := by
  cases s
  rfl

/-- Whitespace at the head is skipped. -/
theorem skipWs_cons_ws (c : Char) (l : List Char) (h : isJsonWs c = true) :
    skipWs (c :: l) = skipWs l := by
  simp [skipWs, List.dropWhile, h]

/-- A non-whitespace head stops the skipping. -/
theorem skipWs_cons_not (c : Char) (l : List Char) (h : isJsonWs c = false) :
    skipWs (c :: l) = c :: l := by
  simp [skipWs, List.dropWhile, h]

/-- Indentation is whitespace. -/
theorem skipWs_indent (n : Nat) (l : List Char) :
    skipWs (indent n ++ l) = skipWs l := by
  unfold indent
  generalize 2 * n = m
  induction m with
  | zero => rfl
  | succ m ih => simpa [List.replicate_succ, skipWs_cons_ws] using ih

/-- `parseVal` ignores leading whitespace. -/
theorem parseVal_cons_ws (fuel : Nat) (c : Char) (l : List Char)
    (h : isJsonWs c = true) : parseVal fuel (c :: l) = parseVal fuel l := by
  cases fuel with
  | zero => rfl
  | succ fuel => simp only [parseVal, skipWs_cons_ws c l h]

/-- `parseVal` ignores leading indentation. -/
theorem parseVal_indent (fuel n : Nat) (l : List Char) :
    parseVal fuel (indent n ++ l) = parseVal fuel l := by
  cases fuel with
  | zero => rfl
  | succ fuel => simp only [parseVal, skipWs_indent]

/-- `parseMembers` ignores leading whitespace. -/
theorem parseMembers_cons_ws (fuel : Nat) (c : Char) (l : List Char)
    (h : isJsonWs c = true) :
    parseMembers fuel (c :: l) = parseMembers fuel l := by
  cases fuel with
  | zero => rfl
  | succ fuel => simp only [parseMembers, skipWs_cons_ws c l h]

/-- `parseMembers` ignores leading indentation. -/
theorem parseMembers_indent (fuel n : Nat) (l : List Char) :
    parseMembers fuel (indent n ++ l) = parseMembers fuel l := by
  cases fuel with
  | zero => rfl
  | succ fuel => simp only [parseMembers, skipWs_indent]

/-- Reading back a hex digit recovers its value. -/
theorem hexVal_hexChar (d : Nat) (h : d < 16) :
    hexVal? (hexChar d) = some d := by
  interval_cases d <;> rfl

/-- A digit character produced by `digitChar` is a digit. -/
theorem digitChar_isDigit (d : Nat) (h : d < 10) :
    (digitChar d).isDigit = true := by
  interval_cases d <;> rfl

/-- The code point of a produced digit character. -/
theorem digitChar_toNat (d : Nat) (h : d < 10) :
    (digitChar d).toNat = 48 + d := by
  interval_cases d <;> rfl

/-- A digit character is not any fixed non-digit character. -/
theorem isDigit_ne (c x : Char) (h : c.isDigit = true) (hx : x.isDigit = false) :
    c ≠ x := by
  intro he
  subst he
  rw [h] at hx
  cases hx

/-- A digit character is not JSON whitespace. -/
theorem isDigit_not_ws (c : Char) (h : c.isDigit = true) :
    isJsonWs c = false := by
  simp [Char.isDigit] at h
  have h1 : 48 ≤ c.toNat := h.1
  have h2 : c.toNat ≤ 57 := h.2
  simp only [isJsonWs, Bool.or_eq_false_iff, decide_eq_false_iff_not]
  omega

/-- The decimal digits of `n`: non-empty, all digits, reading back `n`
(for any sufficient fuel). -/
theorem natCharsAux_spec : ∀ fuel n, n < fuel →
    natCharsAux fuel n ≠ [] ∧ (∀ c ∈ natCharsAux fuel n, c.isDigit = true) ∧
    digitsVal (natCharsAux fuel n) = n := by
  intro fuel
  induction fuel with
  | zero => intro n h; omega
  | succ fuel ih =>
    intro n h
    by_cases h10 : n < 10
    · simp only [natCharsAux, if_pos h10]
      refine ⟨by simp, ?_, ?_⟩
      · intro c hc
        simp only [List.mem_singleton] at hc
        subst hc
        exact digitChar_isDigit n h10
      · show 0 * 10 + ((digitChar n).toNat - 48) = n
        rw [digitChar_toNat n h10]
        omega
    · simp only [natCharsAux, if_neg h10]
      have hlt : n / 10 < fuel := by
        have hd := Nat.div_lt_self (show 0 < n by omega) (show 1 < 10 by omega)
        omega
      obtain ⟨hne, hdig, hval⟩ := ih (n / 10) hlt
      refine ⟨by simp, ?_, ?_⟩
      · intro c hc
        rcases List.mem_append.mp hc with h1 | h2
        · exact hdig c h1
        · simp only [List.mem_singleton] at h2
          subst h2
          exact digitChar_isDigit _ (Nat.mod_lt _ (by omega))
      · unfold digitsVal
        rw [List.foldl_append]
        show digitsVal (natCharsAux fuel (n / 10)) * 10 +
          ((digitChar (n % 10)).toNat - 48) = n
        rw [hval, digitChar_toNat _ (Nat.mod_lt _ (by omega))]
        omega

/-- `takeDigits` splits a digit run followed by a non-digit exactly. -/
theorem takeDigits_append (ds rest : List Char)
    (hd : ∀ c ∈ ds, c.isDigit = true) (hr : noLeadingDigit rest = true) :
    takeDigits (ds ++ rest) = (ds, rest) := by
  induction ds with
  | nil =>
    cases rest with
    | nil => rfl
    | cons c t =>
      simp only [noLeadingDigit, Bool.not_eq_true'] at hr
      simp [takeDigits, hr]
  | cons c t ih =>
    have hc := hd c (List.mem_cons_self c t)
    have ih2 := ih (fun x hx => hd x (List.mem_cons_of_mem _ hx))
    simp only [List.cons_append, takeDigits, hc, if_true]
    show (c :: (takeDigits (t ++ rest)).1, (takeDigits (t ++ rest)).2) =
      (c :: t, rest)
    rw [ih2]

/-- Parsing the decimal rendering of an integer recovers it. -/
theorem parseInt_intChars (n : Int) (rest : List Char)
    (hr : noLeadingDigit rest = true) :
    parseInt? (intChars n ++ rest) = some (n, rest) := by
  obtain ⟨hne, hdig, hval⟩ :=
    natCharsAux_spec (n.natAbs + 1) n.natAbs (Nat.lt_succ_self _)
  unfold intChars natChars
  by_cases hneg : n < 0
  · rw [if_pos hneg]
    simp only [List.cons_append, parseInt?, if_pos rfl]
    rw [takeDigits_append _ _ hdig hr]
    cases hl : natCharsAux (n.natAbs + 1) n.natAbs with
    | nil => exact absurd hl hne
    | cons d t =>
      rw [hl] at hval
      show some (-(digitsVal (d :: t) : Int), rest) = some (n, rest)
      rw [hval]
      congr 1
      congr 1
      omega
  · rw [if_neg hneg]
    cases hl : natCharsAux (n.natAbs + 1) n.natAbs with
    | nil => exact absurd hl hne
    | cons d t =>
      rw [hl] at hval hdig
      have hd : d.isDigit = true := hdig d (List.mem_cons_self d t)
      simp only [List.cons_append, parseInt?]
      rw [if_neg (isDigit_ne d '-' hd (by rfl))]
      have htd := takeDigits_append (d :: t) rest hdig hr
      rw [List.cons_append] at htd
      rw [htd]
      show some ((digitsVal (d :: t) : Int), rest) = some (n, rest)
      rw [hval]
      congr 1
      congr 1
      omega

end ReportGen

namespace ReportGen

/-- One parser step across a `\u00xx` escape. -/
theorem parseEsc_u (acc : List Char) (x y : Char) (t : List Char)
    (a b : Nat) (hx : hexVal? x = some a) (hy : hexVal? y = some b) :
    parseEsc acc ('u' :: '0' :: '0' :: x :: y :: t) =
      parseStrBody (Char.ofNat (((0 * 16 + 0) * 16 + a) * 16 + b) :: acc) t := by
  simp only [parseEsc]
  rw [show hexVal? '0' = some 0 from rfl, hx, hy]

/-- Parsing back the escaped body of a string recovers its characters. -/
theorem parseStrBody_spec (cs : List Char) : ∀ acc rest,
    parseStrBody acc (escChars cs ++ '"' :: rest) =
      some (String.mk (acc.reverse ++ cs), rest) := by
  induction cs with
  | nil =>
    intro acc rest
    show parseStrBody acc ('"' :: rest) = some (String.mk (acc.reverse ++ []), rest)
    rw [List.append_nil]
    rfl
  | cons c cs ih =>
    intro acc rest
    have hesc : escChars (c :: cs) = escChar c ++ escChars cs := by
      simp [escChars]
    rw [hesc, List.append_assoc]
    unfold escChar
    split_ifs with h1 h2 h3 h4 h5 h6 h7 h8
    · subst h1
      show parseStrBody ('"' :: acc) (escChars cs ++ '"' :: rest) =
        some (String.mk (acc.reverse ++ '"' :: cs), rest)
      rw [ih ('"' :: acc) rest]
      simp [List.append_assoc]
    · subst h2
      show parseStrBody ('\\' :: acc) (escChars cs ++ '"' :: rest) =
        some (String.mk (acc.reverse ++ '\\' :: cs), rest)
      rw [ih ('\\' :: acc) rest]
      simp [List.append_assoc]
    · subst h3
      show parseStrBody ('\n' :: acc) (escChars cs ++ '"' :: rest) =
        some (String.mk (acc.reverse ++ '\n' :: cs), rest)
      rw [ih ('\n' :: acc) rest]
      simp [List.append_assoc]
    · subst h4
      show parseStrBody ('\r' :: acc) (escChars cs ++ '"' :: rest) =
        some (String.mk (acc.reverse ++ '\r' :: cs), rest)
      rw [ih ('\r' :: acc) rest]
      simp [List.append_assoc]
    · subst h5
      show parseStrBody ('\t' :: acc) (escChars cs ++ '"' :: rest) =
        some (String.mk (acc.reverse ++ '\t' :: cs), rest)
      rw [ih ('\t' :: acc) rest]
      simp [List.append_assoc]
    · subst h6
      show parseStrBody ('\x08' :: acc) (escChars cs ++ '"' :: rest) =
        some (String.mk (acc.reverse ++ '\x08' :: cs), rest)
      rw [ih ('\x08' :: acc) rest]
      simp [List.append_assoc]
    · subst h7
      show parseStrBody ('\x0c' :: acc) (escChars cs ++ '"' :: rest) =
        some (String.mk (acc.reverse ++ '\x0c' :: cs), rest)
      rw [ih ('\x0c' :: acc) rest]
      simp [List.append_assoc]
    · have hd1 : c.toNat / 16 < 16 := by omega
      have hd2 : c.toNat % 16 < 16 := by omega
      show parseEsc acc ('u' :: '0' :: '0' :: hexChar (c.toNat / 16) ::
        hexChar (c.toNat % 16) :: (escChars cs ++ '"' :: rest)) =
        some (String.mk (acc.reverse ++ c :: cs), rest)
      rw [parseEsc_u acc _ _ _ _ _
        (hexVal_hexChar _ hd1) (hexVal_hexChar _ hd2)]
      have harith : (((0 * 16 + 0) * 16 + c.toNat / 16) * 16 + c.toNat % 16) =
          c.toNat := by omega
      rw [harith, Char.ofNat_toNat]
      rw [ih (c :: acc) rest]
      simp [List.append_assoc]
    · rw [show ([c] ++ (escChars cs ++ '"' :: rest)) =
        c :: (escChars cs ++ '"' :: rest) from rfl]
      simp only [parseStrBody]
      rw [if_neg h1, if_neg h2]
      rw [ih (c :: acc) rest]
      simp [List.append_assoc]

end ReportGen

namespace ReportGen

/-- Every value has at least one node. -/
theorem jsize_pos (v : JValue) : 1 ≤ jsize v := by
  cases v <;> simp [jsize]

/-- Safety of a cons element list, unpacked. -/
theorem jsonSafeList_cons {x : JValue} {xs : List JValue}
    (h : jsonSafeList (x :: xs) = true) :
    jsonSafe x = true ∧ jsonSafeList xs = true := by
  simpa [jsonSafeList, Bool.and_eq_true] using h

/-- Safety of a cons member list, unpacked. -/
theorem jsonSafeFields_cons {k : String} {x : JValue}
    {fs : List (String × JValue)}
    (h : jsonSafeFields ((k, x) :: fs) = true) :
    jsonSafe x = true ∧ jsonSafeFields fs = true := by
  simpa [jsonSafeFields, Bool.and_eq_true] using h

/-- A safe value always serializes. -/
theorem jsonStr_safe_some (v : JValue) (lvl : Nat) (hs : jsonSafe v = true) :
    ∃ cs, jsonStr v lvl = some cs := by
  cases v with
  | undefined => simp [jsonSafe] at hs
  | date iso => simp [jsonSafe] at hs
  | null => exact ⟨_, rfl⟩
  | boolean b => exact ⟨_, rfl⟩
  | number n => exact ⟨_, rfl⟩
  | string s => exact ⟨_, rfl⟩
  | array xs => exact ⟨_, rfl⟩
  | object fs => exact ⟨_, rfl⟩

/-- The serialization of a safe value starts with a character that is
neither `]` nor whitespace. -/
theorem jsonStr_head (v : JValue) (lvl : Nat) (cs : List Char)
    (hs : jsonSafe v = true) (h : jsonStr v lvl = some cs) :
    ∃ c t, cs = c :: t ∧ ¬(c = ']') ∧ isJsonWs c = false := by
  cases v with
  | undefined => simp [jsonSafe] at hs
  | date iso => simp [jsonSafe] at hs
  | null =>
    injection h with h'
    exact ⟨'n', ['u', 'l', 'l'], h'.symm, by decide, by decide⟩
  | boolean b =>
    cases b with
    | true =>
      injection h with h'
      exact ⟨'t', ['r', 'u', 'e'], h'.symm, by decide, by decide⟩
    | false =>
      injection h with h'
      exact ⟨'f', ['a', 'l', 's', 'e'], h'.symm, by decide, by decide⟩
  | number n =>
    injection h with h'
    by_cases hneg : n < 0
    · refine ⟨'-', natChars n.natAbs, ?_, by decide, by decide⟩
      rw [← h']
      simp [intChars, hneg]
    · obtain ⟨hne, hdig, hval⟩ :=
        natCharsAux_spec (n.natAbs + 1) n.natAbs (Nat.lt_succ_self _)
      cases hl : natCharsAux (n.natAbs + 1) n.natAbs with
      | nil => exact absurd hl hne
      | cons d t =>
        have hd : d.isDigit = true := by
          rw [hl] at hdig
          exact hdig d (List.mem_cons_self _ _)
        refine ⟨d, t, ?_, isDigit_ne d ']' hd (by decide), isDigit_not_ws d hd⟩
        rw [← h']
        simp [intChars, hneg, natChars, hl]
  | string s =>
    injection h with h'
    exact ⟨'"', escChars s.data ++ ['"'], h'.symm, by decide, by decide⟩
  | array xs =>
    injection h with h'
    cases hitems : jsonArrItems xs (lvl + 1) with
    | nil =>
      rw [hitems] at h'
      exact ⟨'[', [']'], h'.symm, by decide, by decide⟩
    | cons m ms =>
      rw [hitems] at h'
      exact ⟨'[', _, h'.symm, by decide, by decide⟩
  | object fs =>
    injection h with h'
    cases hmem : jsonMembers fs (lvl + 1) with
    | nil =>
      rw [hmem] at h'
      exact ⟨'{', ['}'], h'.symm, by decide, by decide⟩
    | cons m ms =>
      rw [hmem] at h'
      exact ⟨'{', _, h'.symm, by decide, by decide⟩

/-- One `parseVal` step after an opening bracket. -/
theorem parseVal_lbrack (fuel : Nat) (X : List Char) :
    parseVal (fuel + 1) ('[' :: X) =
      (match skipWs X with
       | [] => none
       | c2 :: r2 =>
         if c2 = ']' then some (.array [], r2)
         else
           match parseItems fuel X with
           | some (xs, r) => some (.array xs, r)
           | none => none) := rfl

/-- One `parseVal` step after an opening brace. -/
theorem parseVal_lbrace (fuel : Nat) (X : List Char) :
    parseVal (fuel + 1) ('{' :: X) =
      (match skipWs X with
       | [] => none
       | c2 :: r2 =>
         if c2 = '}' then some (.object [], r2)
         else
           match parseMembers fuel X with
           | some (fs, r) => some (.object fs, r)
           | none => none) := rfl

end ReportGen

namespace ReportGen

/-- The round-trip: parsing the pretty-printed serialization of a
JSON-safe value (with any sufficient fuel) recovers exactly that value,
leaving the continuation untouched.  The three conjuncts treat a value,
the items of a non-empty array, and the members of a non-empty object. -/
theorem parse_roundtrip : ∀ fuel : Nat,
    (∀ v lvl rest cs, jsonSafe v = true → jsize v ≤ fuel →
      noLeadingDigit rest = true → jsonStr v lvl = some cs →
      parseVal fuel (cs ++ rest) = some (v, rest)) ∧
    (∀ x xs lvl rest cs, jsonSafe x = true → jsonSafeList xs = true →
      1 + jsize x + jsizeList xs ≤ fuel → jsonStr x (lvl + 1) = some cs →
      parseItems fuel ('\n' :: (indent (lvl + 1) ++ (cs ++
        (joinMembers (jsonArrItems xs (lvl + 1)) (lvl + 1) ++
          ('\n' :: (indent lvl ++ (']' :: rest))))))) = some (x :: xs, rest)) ∧
    (∀ k x fs lvl rest cs, jsonSafe x = true → jsonSafeFields fs = true →
      1 + jsize x + jsizeFields fs ≤ fuel → jsonStr x (lvl + 1) = some cs →
      parseMembers fuel ('\n' :: (indent (lvl + 1) ++ ('"' :: (escChars k.data ++
        ('"' :: (':' :: (' ' :: (cs ++
          (joinMembers (jsonMembers fs (lvl + 1)) (lvl + 1) ++
            ('\n' :: (indent lvl ++ ('}' :: rest)))))))))))) =
        some ((k, x) :: fs, rest)) := by
  intro fuel
  induction fuel with
  | zero =>
    refine ⟨?_, ?_, ?_⟩
    · intro v lvl rest cs hs hsz hr hj
      have := jsize_pos v
      omega
    · intro x xs lvl rest cs hs1 hs2 hsz hj
      omega
    · intro k x fs lvl rest cs hs1 hs2 hsz hj
      omega
  | succ fuel ih =>
    obtain ⟨ihA, ihB, ihC⟩ := ih
    refine ⟨?_, ?_, ?_⟩
    · -- one value
      intro v lvl rest cs hs hsz hr hj
      cases v with
      | undefined => simp [jsonSafe] at hs
      | date iso => simp [jsonSafe] at hs
      | null =>
        injection hj with hj'
        subst hj'
        rfl
      | boolean b =>
        cases b with
        | true =>
          injection hj with hj'
          subst hj'
          rfl
        | false =>
          injection hj with hj'
          subst hj'
          rfl
      | number n =>
        injection hj with hj'
        subst hj'
        have hpi := parseInt_intChars n rest hr
        by_cases hneg : n < 0
        · have hic : intChars n = '-' :: natChars n.natAbs := by
            simp [intChars, hneg]
          rw [hic] at hpi ⊢
          rw [List.cons_append] at hpi ⊢
          simp only [parseVal]
          rw [skipWs_cons_not _ _ (by decide)]
          simp [hpi]
        · obtain ⟨hne, hdig, hval⟩ :=
            natCharsAux_spec (n.natAbs + 1) n.natAbs (Nat.lt_succ_self _)
          cases hl : natCharsAux (n.natAbs + 1) n.natAbs with
          | nil => exact absurd hl hne
          | cons d t =>
            have hd : d.isDigit = true := by
              rw [hl] at hdig
              exact hdig d (List.mem_cons_self _ _)
            have hic : intChars n = d :: t := by
              simp [intChars, hneg, natChars, hl]
            rw [hic] at hpi ⊢
            rw [List.cons_append] at hpi ⊢
            simp only [parseVal]
            rw [skipWs_cons_not _ _ (isDigit_not_ws d hd)]
            simp [if_neg (isDigit_ne d 'n' hd (by decide)),
              if_neg (isDigit_ne d 't' hd (by decide)),
              if_neg (isDigit_ne d 'f' hd (by decide)),
              if_neg (isDigit_ne d '"' hd (by decide)),
              if_neg (isDigit_ne d '[' hd (by decide)),
              if_neg (isDigit_ne d '{' hd (by decide)), hpi]
      | string s =>
        injection hj with hj'
        subst hj'
        have hq : quoteChars s ++ rest = '"' :: (escChars s.data ++ '"' :: rest) := by
          simp [quoteChars, List.append_assoc]
        rw [hq]
        simp only [parseVal]
        rw [skipWs_cons_not _ _ (by decide)]
        simp [parseStrBody_spec s.data [] rest, strMk_data]
      | array xs =>
        cases xs with
        | nil =>
          injection hj with hj'
          subst hj'
          rfl
        | cons x xs' =>
          have hl : jsonSafeList (x :: xs') = true := hs
          obtain ⟨hsx, hsxs⟩ := jsonSafeList_cons hl
          obtain ⟨csx, hcsx⟩ := jsonStr_safe_some x (lvl + 1) hsx
          have hitems : jsonArrItems (x :: xs') (lvl + 1) =
              csx :: jsonArrItems xs' (lvl + 1) := by
            simp [jsonArrItems, hcsx]
          injection hj with hj'
          rw [hitems] at hj'
          subst hj'
          obtain ⟨c0, t0, hc0, hne0, hws0⟩ := jsonStr_head x (lvl + 1) csx hsx hcsx
          have hB2 := ihB x xs' lvl rest csx hsx hsxs
            (by
              have h1 : jsize (JValue.array (x :: xs')) =
                  1 + (1 + jsize x + jsizeList xs') := rfl
              omega) hcsx
          show parseVal (fuel + 1) ('[' :: ('\n' :: ((indent (lvl + 1) ++ csx ++
            joinMembers (jsonArrItems xs' (lvl + 1)) (lvl + 1) ++
            '\n' :: (indent lvl ++ [']'])) ++ rest))) =
            some (JValue.array (x :: xs'), rest)
          rw [parseVal_lbrack]
          have hskip : skipWs ('\n' :: ((indent (lvl + 1) ++ csx ++
              joinMembers (jsonArrItems xs' (lvl + 1)) (lvl + 1) ++
              '\n' :: (indent lvl ++ [']'])) ++ rest)) =
              c0 :: (t0 ++ (joinMembers (jsonArrItems xs' (lvl + 1)) (lvl + 1) ++
                ('\n' :: (indent lvl ++ (']' :: rest))))) := by
            rw [skipWs_cons_ws _ _ (by decide)]
            simp only [List.append_assoc, List.cons_append, List.singleton_append,
              List.nil_append]
            rw [skipWs_indent, hc0, List.cons_append, skipWs_cons_not _ _ hws0]
          rw [hskip]
          simp [hne0, hB2]
      | object fs =>
        cases fs with
        | nil =>
          injection hj with hj'
          subst hj'
          rfl
        | cons kv fs' =>
          obtain ⟨k, x⟩ := kv
          have hl : jsonSafeFields ((k, x) :: fs') = true := hs
          obtain ⟨hsx, hsfs⟩ := jsonSafeFields_cons hl
          obtain ⟨csx, hcsx⟩ := jsonStr_safe_some x (lvl + 1) hsx
          have hmem : jsonMembers ((k, x) :: fs') (lvl + 1) =
              (quoteChars k ++ ':' :: ' ' :: csx) :: jsonMembers fs' (lvl + 1) := by
            simp [jsonMembers, hcsx]
          injection hj with hj'
          rw [hmem] at hj'
          subst hj'
          have hC2 := ihC k x fs' lvl rest csx hsx hsfs
            (by
              have h1 : jsize (JValue.object ((k, x) :: fs')) =
                  1 + (1 + jsize x + jsizeFields fs') := rfl
              omega) hcsx
          show parseVal (fuel + 1) ('{' :: ('\n' :: ((indent (lvl + 1) ++
            (quoteChars k ++ ':' :: ' ' :: csx) ++
            joinMembers (jsonMembers fs' (lvl + 1)) (lvl + 1) ++
            '\n' :: (indent lvl ++ ['}'])) ++ rest))) =
            some (JValue.object ((k, x) :: fs'), rest)
          rw [parseVal_lbrace]
          have hskip : skipWs ('\n' :: ((indent (lvl + 1) ++
              (quoteChars k ++ ':' :: ' ' :: csx) ++
              joinMembers (jsonMembers fs' (lvl + 1)) (lvl + 1) ++
              '\n' :: (indent lvl ++ ['}'])) ++ rest)) =
              '"' :: (escChars k.data ++ ('"' :: (':' :: (' ' :: (csx ++
                (joinMembers (jsonMembers fs' (lvl + 1)) (lvl + 1) ++
                  ('\n' :: (indent lvl ++ ('}' :: rest))))))))) := by
            rw [skipWs_cons_ws _ _ (by decide)]
            simp only [quoteChars, List.append_assoc, List.cons_append,
              List.singleton_append, List.nil_append]
            rw [skipWs_indent, skipWs_cons_not _ _ (by decide)]
          rw [hskip]
          simp [show ¬(('"' : Char) = '}') by decide, quoteChars, hC2]
    · -- items of a non-empty array
      intro x xs lvl rest cs hs1 hs2 hsz hj
      have hnl : noLeadingDigit (joinMembers (jsonArrItems xs (lvl + 1)) (lvl + 1) ++
          ('\n' :: (indent lvl ++ (']' :: rest)))) = true := by
        cases xs <;> rfl
      have hA := ihA x (lvl + 1)
        (joinMembers (jsonArrItems xs (lvl + 1)) (lvl + 1) ++
          ('\n' :: (indent lvl ++ (']' :: rest)))) cs hs1 (by omega) hnl hj
      have hv : parseVal fuel ('\n' :: (indent (lvl + 1) ++ (cs ++
          (joinMembers (jsonArrItems xs (lvl + 1)) (lvl + 1) ++
            ('\n' :: (indent lvl ++ (']' :: rest))))))) =
          some (x, joinMembers (jsonArrItems xs (lvl + 1)) (lvl + 1) ++
            ('\n' :: (indent lvl ++ (']' :: rest)))) := by
        rw [parseVal_cons_ws _ _ _ (by decide), parseVal_indent]
        exact hA
      cases xs with
      | nil =>
        rw [show joinMembers (jsonArrItems ([] : List JValue) (lvl + 1)) (lvl + 1) =
          [] from rfl, List.nil_append] at hv ⊢
        simp only [parseItems, hv]
        rw [show skipWs ('\n' :: (indent lvl ++ (']' :: rest))) = ']' :: rest from by
          rw [skipWs_cons_ws _ _ (by decide), skipWs_indent,
            skipWs_cons_not _ _ (by decide)]]
        rfl
      | cons y ys =>
        obtain ⟨hy, hys⟩ := jsonSafeList_cons hs2
        obtain ⟨csy, hcsy⟩ := jsonStr_safe_some y (lvl + 1) hy
        have hitems : jsonArrItems (y :: ys) (lvl + 1) =
            csy :: jsonArrItems ys (lvl + 1) := by
          simp [jsonArrItems, hcsy]
        rw [hitems] at hv ⊢
        simp only [joinMembers, List.cons_append, List.append_assoc,
          List.nil_append] at hv ⊢
        have hB2 := ihB y ys lvl rest csy hy hys
          (by
            have h1 : jsizeList (y :: ys) = 1 + jsize y + jsizeList ys := rfl
            omega) hcsy
        simp only [parseItems, hv]
        rw [skipWs_cons_not _ _ (by decide)]
        simp [hB2]
    · -- members of a non-empty object
      intro k x fs lvl rest cs hs1 hs2 hsz hj
      have hnl : noLeadingDigit (joinMembers (jsonMembers fs (lvl + 1)) (lvl + 1) ++
          ('\n' :: (indent lvl ++ ('}' :: rest)))) = true := by
        cases fs with
        | nil => rfl
        | cons kv fs' =>
          obtain ⟨k', x'⟩ := kv
          obtain ⟨hx', hfs'⟩ := jsonSafeFields_cons hs2
          obtain ⟨cs', hcs'⟩ := jsonStr_safe_some x' (lvl + 1) hx'
          have hmem : jsonMembers ((k', x') :: fs') (lvl + 1) =
              (quoteChars k' ++ ':' :: ' ' :: cs') :: jsonMembers fs' (lvl + 1) := by
            simp [jsonMembers, hcs']
          rw [hmem]
          rfl
      have hA := ihA x (lvl + 1)
        (joinMembers (jsonMembers fs (lvl + 1)) (lvl + 1) ++
          ('\n' :: (indent lvl ++ ('}' :: rest)))) cs hs1 (by omega) hnl hj
      have hv : parseVal fuel (' ' :: (cs ++
          (joinMembers (jsonMembers fs (lvl + 1)) (lvl + 1) ++
            ('\n' :: (indent lvl ++ ('}' :: rest)))))) =
          some (x, joinMembers (jsonMembers fs (lvl + 1)) (lvl + 1) ++
            ('\n' :: (indent lvl ++ ('}' :: rest)))) := by
        rw [parseVal_cons_ws _ _ _ (by decide)]
        exact hA
      have hkr := parseStrBody_spec k.data []
        (':' :: (' ' :: (cs ++ (joinMembers (jsonMembers fs (lvl + 1)) (lvl + 1) ++
          ('\n' :: (indent lvl ++ ('}' :: rest)))))))
      simp only [parseMembers]
      rw [show skipWs ('\n' :: (indent (lvl + 1) ++ ('"' :: (escChars k.data ++
          ('"' :: (':' :: (' ' :: (cs ++
            (joinMembers (jsonMembers fs (lvl + 1)) (lvl + 1) ++
              ('\n' :: (indent lvl ++ ('}' :: rest)))))))))))) =
        '"' :: (escChars k.data ++ ('"' :: (':' :: (' ' :: (cs ++
          (joinMembers (jsonMembers fs (lvl + 1)) (lvl + 1) ++
            ('\n' :: (indent lvl ++ ('}' :: rest))))))))) from by
        rw [skipWs_cons_ws _ _ (by decide), skipWs_indent,
          skipWs_cons_not _ _ (by decide)]]
      cases fs with
      | nil =>
        have htail : skipWs
            (joinMembers (jsonMembers ([] : List (String × JValue)) (lvl + 1)) (lvl + 1) ++
              ('\n' :: (indent lvl ++ ('}' :: rest)))) = '}' :: rest := by
          rw [show joinMembers (jsonMembers ([] : List (String × JValue)) (lvl + 1))
              (lvl + 1) = [] from rfl, List.nil_append,
            skipWs_cons_ws _ _ (by decide), skipWs_indent,
            skipWs_cons_not _ _ (by decide)]
        simp [hkr, strMk_data, hv, htail,
          show skipWs (':' :: (' ' :: (cs ++
            (joinMembers (jsonMembers ([] : List (String × JValue)) (lvl + 1)) (lvl + 1) ++
              ('\n' :: (indent lvl ++ ('}' :: rest))))))) =
          ':' :: (' ' :: (cs ++
            (joinMembers (jsonMembers ([] : List (String × JValue)) (lvl + 1)) (lvl + 1) ++
              ('\n' :: (indent lvl ++ ('}' :: rest)))))) from
            skipWs_cons_not _ _ (by decide)]
      | cons kv fs' =>
        obtain ⟨k', x'⟩ := kv
        obtain ⟨hx', hfs'⟩ := jsonSafeFields_cons hs2
        obtain ⟨cs', hcs'⟩ := jsonStr_safe_some x' (lvl + 1) hx'
        have hmem : jsonMembers ((k', x') :: fs') (lvl + 1) =
            (quoteChars k' ++ ':' :: ' ' :: cs') :: jsonMembers fs' (lvl + 1) := by
          simp [jsonMembers, hcs']
        have hC2 := ihC k' x' fs' lvl rest cs' hx' hfs'
          (by
            have h1 : jsizeFields ((k', x') :: fs') =
                1 + jsize x' + jsizeFields fs' := rfl
            omega) hcs'
        rw [hmem] at hv ⊢
        simp only [joinMembers, List.cons_append, List.append_assoc,
          quoteChars, List.singleton_append, List.nil_append] at hv ⊢
        rw [hmem] at hkr
        simp only [joinMembers, List.cons_append, List.append_assoc,
          quoteChars, List.singleton_append, List.nil_append] at hkr
        simp only [hkr, strMk_data]
        rw [show skipWs (':' :: (' ' :: (cs ++ (',' :: ('\n' :: (indent (lvl + 1) ++
            ('"' :: (escChars k'.data ++ ('"' :: (':' :: (' ' :: (cs' ++
              (joinMembers (jsonMembers fs' (lvl + 1)) (lvl + 1) ++
                ('\n' :: (indent lvl ++ ('}' :: rest)))))))))))))))) =
          ':' :: (' ' :: (cs ++ (',' :: ('\n' :: (indent (lvl + 1) ++
            ('"' :: (escChars k'.data ++ ('"' :: (':' :: (' ' :: (cs' ++
              (joinMembers (jsonMembers fs' (lvl + 1)) (lvl + 1) ++
                ('\n' :: (indent lvl ++ ('}' :: rest))))))))))))))) from
          skipWs_cons_not _ _ (by decide)]
        simp [hv, hC2, skipWs_cons_not _ _ (show isJsonWs ',' = false by decide)]

end ReportGen

namespace ReportGen

/-- Each rendered item contributes at least `1 + length` to the joined text. -/
theorem itemsLen_le_joinMembers (ms : List (List Char)) (lvl : Nat) :
    itemsLen ms ≤ (joinMembers ms lvl).length := by
  induction ms with
  | nil => simp [itemsLen, joinMembers]
  | cons m ms ih =>
    simp only [itemsLen, joinMembers, List.length_cons, List.length_append]
    omega

/-- The node count of a JSON-safe value is bounded by the length of its
serialization, so `length + 1` fuel suffices for the parser. -/
theorem jsize_le_len : ∀ n : Nat,
    (∀ v lvl cs, jsize v ≤ n → jsonSafe v = true → jsonStr v lvl = some cs →
      jsize v ≤ cs.length) ∧
    (∀ xs lvl, jsizeList xs ≤ n → jsonSafeList xs = true →
      jsizeList xs ≤ itemsLen (jsonArrItems xs lvl)) ∧
    (∀ fs lvl, jsizeFields fs ≤ n → jsonSafeFields fs = true →
      jsizeFields fs ≤ itemsLen (jsonMembers fs lvl)) := by
  intro n
  induction n with
  | zero =>
    refine ⟨?_, ?_, ?_⟩
    · intro v lvl cs hb hs hj
      have := jsize_pos v
      omega
    · intro xs lvl hb hs
      cases xs with
      | nil => simp [jsizeList, jsonArrItems, itemsLen]
      | cons x xs =>
        have h1 : jsizeList (x :: xs) = 1 + jsize x + jsizeList xs := rfl
        omega
    · intro fs lvl hb hs
      cases fs with
      | nil => simp [jsizeFields, jsonMembers, itemsLen]
      | cons kv fs =>
        obtain ⟨k, x⟩ := kv
        have h1 : jsizeFields ((k, x) :: fs) = 1 + jsize x + jsizeFields fs := rfl
        omega
  | succ n ih =>
    obtain ⟨ihA, ihB, ihC⟩ := ih
    refine ⟨?_, ?_, ?_⟩
    · intro v lvl cs hb hs hj
      cases v with
      | undefined => simp [jsonSafe] at hs
      | date iso => simp [jsonSafe] at hs
      | null =>
        injection hj with hj'
        subst hj'
        decide
      | boolean b =>
        injection hj with hj'
        subst hj'
        cases b <;> decide
      | number m =>
        injection hj with hj'
        subst hj'
        show 1 ≤ (intChars m).length
        obtain ⟨hne, _, _⟩ :=
          natCharsAux_spec (m.natAbs + 1) m.natAbs (Nat.lt_succ_self _)
        cases hl : natCharsAux (m.natAbs + 1) m.natAbs with
        | nil => exact absurd hl hne
        | cons d t =>
          by_cases hneg : m < 0
          · simp [intChars, hneg, natChars, hl]
          · simp [intChars, hneg, natChars, hl]
      | string s =>
        injection hj with hj'
        subst hj'
        show 1 ≤ (quoteChars s).length
        simp [quoteChars]
      | array xs =>
        injection hj with hj'
        have hsz' : jsize (JValue.array xs) = 1 + jsizeList xs := rfl
        have hB := ihB xs (lvl + 1) (by omega) hs
        rw [hsz']
        cases hxs : jsonArrItems xs (lvl + 1) with
        | nil =>
          rw [hxs] at hj' hB
          have h0 : itemsLen ([] : List (List Char)) = 0 := rfl
          have h2 : cs.length = 2 := by rw [← hj']; rfl
          omega
        | cons m ms =>
          rw [hxs] at hj' hB
          subst hj'
          have hD := itemsLen_le_joinMembers ms (lvl + 1)
          have hB' : jsizeList xs ≤ 1 + m.length + itemsLen ms := hB
          simp only [List.length_cons, List.length_append]
          omega
      | object fs =>
        injection hj with hj'
        have hsz' : jsize (JValue.object fs) = 1 + jsizeFields fs := rfl
        have hC := ihC fs (lvl + 1) (by omega) hs
        rw [hsz']
        cases hfs : jsonMembers fs (lvl + 1) with
        | nil =>
          rw [hfs] at hj' hC
          have h0 : itemsLen ([] : List (List Char)) = 0 := rfl
          have h2 : cs.length = 2 := by rw [← hj']; rfl
          omega
        | cons m ms =>
          rw [hfs] at hj' hC
          subst hj'
          have hD := itemsLen_le_joinMembers ms (lvl + 1)
          have hC' : jsizeFields fs ≤ 1 + m.length + itemsLen ms := hC
          simp only [List.length_cons, List.length_append]
          omega
    · intro xs lvl hb hs
      cases xs with
      | nil => simp [jsizeList, jsonArrItems, itemsLen]
      | cons x xs =>
        obtain ⟨hsx, hsxs⟩ := jsonSafeList_cons hs
        obtain ⟨cs, hcs⟩ := jsonStr_safe_some x lvl hsx
        have h2 : jsizeList (x :: xs) = 1 + jsize x + jsizeList xs := rfl
        have hA := ihA x lvl cs (by omega) hsx hcs
        have hB := ihB xs lvl (by omega) hsxs
        rw [show jsonArrItems (x :: xs) lvl = cs :: jsonArrItems xs lvl from by
          simp [jsonArrItems, hcs]]
        have h1 : itemsLen (cs :: jsonArrItems xs lvl) =
            1 + cs.length + itemsLen (jsonArrItems xs lvl) := rfl
        omega
    · intro fs lvl hb hs
      cases fs with
      | nil => simp [jsizeFields, jsonMembers, itemsLen]
      | cons kv fs =>
        obtain ⟨k, x⟩ := kv
        obtain ⟨hsx, hsfs⟩ := jsonSafeFields_cons hs
        obtain ⟨cs, hcs⟩ := jsonStr_safe_some x lvl hsx
        have h2 : jsizeFields ((k, x) :: fs) = 1 + jsize x + jsizeFields fs := rfl
        have hA := ihA x lvl cs (by omega) hsx hcs
        have hC := ihC fs lvl (by omega) hsfs
        rw [show jsonMembers ((k, x) :: fs) lvl =
            (quoteChars k ++ ':' :: ' ' :: cs) :: jsonMembers fs lvl from by
          simp [jsonMembers, hcs]]
        have h1 : itemsLen ((quoteChars k ++ ':' :: ' ' :: cs) :: jsonMembers fs lvl) =
            1 + (quoteChars k ++ ':' :: ' ' :: cs).length +
              itemsLen (jsonMembers fs lvl) := rfl
        have h3 : (quoteChars k ++ ':' :: ' ' :: cs).length =
            (quoteChars k).length + (cs.length + 2) := by
          simp [List.length_append]
        omega

/-- Parsing the generated JSON document of safe data/metadata recovers the
exact wrapper object. -/
theorem parseJson_generateJSON (data metadata : JValue) (nowIso : String)
    (hd : jsonSafe data = true) (hm : jsonSafe metadata = true) :
    parseJson (generateJSON data metadata nowIso) =
      some (JValue.object [("metadata", metadata), ("data", data),
        ("generatedAt", JValue.string nowIso)]) := by
  set W : JValue := JValue.object [("metadata", metadata), ("data", data),
    ("generatedAt", JValue.string nowIso)] with hW
  have hsafe : jsonSafe W = true := by
    show (jsonSafe metadata && (jsonSafe data && (true && true))) = true
    rw [hd, hm]
    rfl
  obtain ⟨cs, hcs⟩ := jsonStr_safe_some W 0 hsafe
  have hgen : generateJSON data metadata nowIso = String.mk cs := by
    show String.mk ((jsonStr W 0).getD []) = String.mk cs
    rw [hcs]
    rfl
  have hbound : jsize W ≤ cs.length :=
    (jsize_le_len (jsize W)).1 W 0 cs le_rfl hsafe hcs
  have hA := (parse_roundtrip (cs.length + 1)).1 W 0 [] cs hsafe
    (by omega) rfl hcs
  rw [List.append_nil] at hA
  rw [hgen]
  show (match parseVal ((String.mk cs).length + 1) (String.mk cs).data with
    | some (v, rest) => if (skipWs rest).isEmpty then some v else none
    | none => none) = some W
  rw [show (String.mk cs).length = cs.length from rfl, strMk_data, hA]
  rfl

end ReportGen

namespace ReportGen

/-- C5: the round-trip as universally stated fails: a `data` value
containing `undefined` inside an array serializes identically to one
containing `null` (JSON.stringify renders `undefined` array elements as
`null`), so parsing the output cannot recover the original `data`
substructure unchanged. -/
theorem C5_roundtrip_counterexample :
    generateJSON (JValue.array [JValue.undefined]) JValue.null "t" =
      generateJSON (JValue.array [JValue.null]) JValue.null "t" ∧
    JValue.array [JValue.undefined] ≠ JValue.array [JValue.null] := by
  constructor
  · rfl
  · intro h
    injection h with h1
    injection h1 with h2
    cases h2

/-- C5 (amended): on the JSON-safe fragment (no `undefined`, no `Date`
anywhere), generateJSON round-trips: parsing the generated document
recovers the wrapper object with the original `data` and `metadata`
substructures unchanged. -/
theorem C5_json_roundtrip (data metadata : JValue) (nowIso : String)
    (hd : jsonSafe data = true) (hm : jsonSafe metadata = true) :
    parseJson (generateJSON data metadata nowIso) =
      some (JValue.object [("metadata", metadata), ("data", data),
        ("generatedAt", JValue.string nowIso)]) :=
  parseJson_generateJSON data metadata nowIso hd hm

/-- Witness: the round-trip at a concrete safe data/metadata pair. -/
theorem C5_json_roundtrip_witness :
    jsonSafe (JValue.object [("a", JValue.number 1),
      ("b", JValue.array [JValue.string "x", JValue.boolean true])]) = true ∧
    jsonSafe (JValue.object [("title", JValue.string "Report")]) = true ∧
    parseJson (generateJSON
        (JValue.object [("a", JValue.number 1),
          ("b", JValue.array [JValue.string "x", JValue.boolean true])])
        (JValue.object [("title", JValue.string "Report")])
        "2024-01-01T00:00:00.000Z") =
      some (JValue.object [
        ("metadata", JValue.object [("title", JValue.string "Report")]),
        ("data", JValue.object [("a", JValue.number 1),
          ("b", JValue.array [JValue.string "x", JValue.boolean true])]),
        ("generatedAt", JValue.string "2024-01-01T00:00:00.000Z")]) :=
  ⟨rfl, rfl, C5_json_roundtrip
    (JValue.object [("a", JValue.number 1),
      ("b", JValue.array [JValue.string "x", JValue.boolean true])])
    (JValue.object [("title", JValue.string "Report")])
    "2024-01-01T00:00:00.000Z" rfl rfl⟩

end ReportGen
